import Mathlib

/-!
Verification development for the painel-dcc dashboard (a Dash/pandas
multi-page reporting application).  The Python source is shallowly
embedded: data frames become lists of rows or columns over
`Option String` cells (`none` models a missing value / NaN), currency
values become rationals, and each Dash callback becomes a pure Lean
function translated from its Python body.
-/

set_option maxHeartbeats 1000000
set_option maxRecDepth 8000

/-- Missing values (NaN) are `none`; every other CSV cell is a string. -/
abbrev Cell := Option String

/-- Characters treated as whitespace by the embedding of Python `str.strip()`
and `float()` (the ASCII whitespace set). -/
def pyWS : List Char := [' ', '\t', '\n', '\r', '\x0b', '\x0c']

/-- Whitespace test used by the `strip` embedding. -/
def isWS (c : Char) : Bool := pyWS.contains c

/-- Embedding of Python `str.strip()` on raw character lists. -/
def pyStripData (l : List Char) : List Char :=
  ((l.dropWhile isWS).reverse.dropWhile isWS).reverse

/-- Embedding of Python `str.strip()`. -/
def pyStrip (s : String) : String := String.mk (pyStripData s.data)

/-- Embedding of Python `str.lower()` (ASCII case folding). -/
def pyLower (s : String) : String := String.mk (s.data.map Char.toLower)

/-- Boolean prefix test on character lists. -/
def isPrefixL : List Char → List Char → Bool
  | [], _ => true
  | _ :: _, [] => false
  | a :: as, b :: bs => a == b && isPrefixL as bs

/-- Embedding of Python `str.startswith`. -/
def pyStartsWith (s pre : String) : Bool := isPrefixL pre.data s.data

/-- Contiguous-substring test: `hasSubstr hay needle` is Python
`needle in hay` on character lists. -/
def hasSubstr : List Char → List Char → Bool
  | [], needle => needle.isEmpty
  | c :: t, needle => isPrefixL needle (c :: t) || hasSubstr t needle

/-- The metacharacters of Python regular expressions. -/
def reMetaChars : List Char :=
  ['.', '^', '$', '*', '+', '?', '\x7b', '\x7d', '[', ']', '\\', '|', '(', ')']

/-- Patterns made of literal characters and the dot metacharacter only.
The embedding of `re.search` below is faithful exactly on this fragment,
and every theorem that touches a regex keeps its patterns inside it. -/
def dotLiteralPattern (p : List Char) : Bool :=
  p.all (fun c => c == '.' || !(reMetaChars.contains c))

/-- Patterns made of literal characters only (no metacharacter at all). -/
def literalPattern (p : List Char) : Bool :=
  p.all (fun c => !(reMetaChars.contains c))

/-- Matching of a dot/literal pattern against a prefix of the text:
a literal character matches itself, the dot matches any character except
a newline (Python `re` default). -/
def reMatchHere : List Char → List Char → Bool
  | [], _ => true
  | _ :: _, [] => false
  | p :: ps, t :: ts => (if p == '.' then t != '\n' else p == t) && reMatchHere ps ts

/-- Embedding of Python `re.search` for the dot/literal fragment: the
pattern may match starting at any position of the text. -/
def reSearch (pat : List Char) : List Char → Bool
  | [] => reMatchHere pat []
  | c :: t => reMatchHere pat (c :: t) || reSearch pat t

/-- Embedding of `pandas.Series.str.contains(pat)` (its default is
`regex=True`, so this is `re.search(pat, cell)`), faithful on the
dot/literal pattern fragment. -/
def pyContains (hay pat : String) : Bool := reSearch pat.data hay.data

theorem literalPattern_cons {c : Char} {p : List Char}
    (h : literalPattern (c :: p) = true) :
    (reMetaChars.contains c = false) ∧ literalPattern p = true := by
  simp [literalPattern, List.all_cons] at h
  constructor
  · simpa using h.1
  · simpa [literalPattern] using h.2

theorem reMatchHere_eq_isPrefixL (p : List Char) (hp : literalPattern p = true) :
    ∀ t : List Char, reMatchHere p t = isPrefixL p t := by
  induction p with
  | nil => intro t; cases t <;> rfl
  | cons c ps ih =>
    intro t
    obtain ⟨hc, hps⟩ := literalPattern_cons hp
    have hcdot : (c == '.') = false := by
      cases hdot : c == '.' with
      | false => rfl
      | true =>
        have : c = '.' := by simpa using hdot
        subst this
        simp [reMetaChars] at hc
    cases t with
    | nil => rfl
    | cons b bs =>
      simp [reMatchHere, isPrefixL, hcdot, ih hps]

theorem reSearch_eq_hasSubstr (p : List Char) (hp : literalPattern p = true) :
    ∀ t : List Char, reSearch p t = hasSubstr t p := by
  intro t
  induction t with
  | nil =>
    simp only [reSearch, hasSubstr]
    rw [reMatchHere_eq_isPrefixL p hp]
    cases p <;> rfl
  | cons c ts ih =>
    simp only [reSearch, hasSubstr]
    rw [reMatchHere_eq_isPrefixL p hp, ih]

namespace Contratos

/-- One row of the contracts base table, after `carregar_dados_contratos`
has renamed the CSV columns, formatted the three date columns back to
`dd/mm/yyyy` strings and computed `Status da Vigência`.  `none` is a
missing value (NaN). -/
structure Row where
  contrato : Option String
  setor : Option String
  grupo : Option String
  objeto : Option String
  empresa : Option String
  inicioVig : Option String
  terminoExec : Option String
  terminoVig : Option String
  statusVig : Option String
  link : Option String
deriving DecidableEq, Repr

/-- The eight filter inputs of the `atualizar_tabela_contratos` callback,
in source order.  A `dcc.Input` or `dcc.Dropdown` value is either absent
(`none`) or a string. -/
structure Filters where
  contratoTexto : Option String
  contratoDrop : Option String
  setorTexto : Option String
  setorDrop : Option String
  grupo : Option String
  empresaTexto : Option String
  empresaDrop : Option String
  statusVig : Option String
deriving DecidableEq, Repr

/-- Python `str(x)` on a cell: NaN prints as "nan". -/
def cellStr : Cell → String
  | some s => s
  | none => "nan"

/-- Truthiness guard of a text filter:
`if contrato_texto and str(contrato_texto).strip():`. -/
def textFilterActive : Option String → Bool
  | none => false
  | some s => s != "" && pyStrip s != ""

/-- The search term: `str(x).strip().lower()`. -/
def termoOf : Option String → String
  | none => ""
  | some s => pyLower (pyStrip s)

/-- One pandas text filter step:
`dff[dff[col].astype(str).str.lower().str.contains(termo, na=False)]`. -/
def filtroTexto (sel : Row → Cell) (input : Option String) (d : List Row) : List Row :=
  if textFilterActive input then
    d.filter (fun r => pyContains (pyLower (cellStr (sel r))) (termoOf input))
  else d

/-- One pandas dropdown filter step: `if v: dff = dff[dff[col] == v]`. -/
def filtroIgual (sel : Row → Cell) (input : Option String) (d : List Row) : List Row :=
  match input with
  | none => d
  | some s => if s == "" then d else d.filter (fun r => sel r == some s)

/-- `mk_link`: markdown link cell built from `Link Comprasnet` and
`Contrato`.  A missing cell is a NaN float, so the `isinstance(..., str)`
tests fail on it and the fallback `str(contrato)` renders it as "nan". -/
def mk_link (r : Row) : String :=
  match r.link, r.contrato with
  | some url, some contrato =>
      if pyStrip url == "" then contrato
      else "[" ++ contrato ++ "](" ++ pyStrip url ++ ")"
  | _, _ => cellStr r.contrato

/-- A record of the `tabela_contratos` DataTable: the nine displayed
columns, with the markdown link in place of the raw contract number. -/
structure TableRec where
  contratoMarkdown : String
  setor : Option String
  grupo : Option String
  objeto : Option String
  empresa : Option String
  inicioVig : Option String
  terminoExec : Option String
  terminoVig : Option String
  statusVig : Option String
deriving DecidableEq, Repr

/-- A record of the `store_dados_contratos` store: the full filtered row
plus the added `Contrato_markdown` column. -/
structure StoreRec where
  row : Row
  contratoMarkdown : String
deriving DecidableEq, Repr

/-- Projection of a filtered row onto the table columns. -/
def toTableRec (r : Row) : TableRec :=
  ⟨mk_link r, r.setor, r.grupo, r.objeto, r.empresa,
   r.inicioVig, r.terminoExec, r.terminoVig, r.statusVig⟩

/-- Embedding of the callback `atualizar_tabela_contratos`
(src/pages/contratos.py lines 378-450): the eight filters applied in
source order, then the markdown column and the two record outputs. -/
def atualizar_tabela_contratos (base : List Row) (f : Filters) :
    List TableRec × List StoreRec :=
  let dff := filtroTexto Row.contrato f.contratoTexto base
  let dff := filtroIgual Row.contrato f.contratoDrop dff
  let dff := filtroTexto Row.setor f.setorTexto dff
  let dff := filtroIgual Row.setor f.setorDrop dff
  let dff := filtroIgual Row.grupo f.grupo dff
  let dff := filtroTexto Row.empresa f.empresaTexto dff
  let dff := filtroIgual Row.empresa f.empresaDrop dff
  let dff := filtroIgual Row.statusVig f.statusVig dff
  (dff.map toTableRec, dff.map (fun r => StoreRec.mk r (mk_link r)))

/-- The code semantics of one text filter as a row predicate (regex
search of the stripped, lowercased input in the lowercased cell). -/
def codeTextoOk (input : Option String) (cell : Cell) : Bool :=
  match input with
  | none => true
  | some s =>
      if s == "" || pyStrip s == "" then true
      else pyContains (pyLower (cellStr cell)) (pyLower (pyStrip s))

/-- Dropdown filter as a row predicate: exact equality on the column,
no constraint when the value is absent or empty. -/
def igualOk (input : Option String) (cell : Cell) : Bool :=
  match input with
  | none => true
  | some s => if s == "" then true else cell == some s

/-- The claim semantics of one text filter: case-insensitive literal
substring match of the stripped input on the column. -/
def specTextoOk (input : Option String) (cell : Cell) : Bool :=
  match input with
  | none => true
  | some s =>
      if s == "" || pyStrip s == "" then true
      else hasSubstr (pyLower (cellStr cell)).data (pyLower (pyStrip s)).data

/-- Conjunction of the eight filters with code (regex) text semantics. -/
def codeRowOk (f : Filters) (r : Row) : Bool :=
  codeTextoOk f.contratoTexto r.contrato && igualOk f.contratoDrop r.contrato &&
  codeTextoOk f.setorTexto r.setor && igualOk f.setorDrop r.setor &&
  igualOk f.grupo r.grupo && codeTextoOk f.empresaTexto r.empresa &&
  igualOk f.empresaDrop r.empresa && igualOk f.statusVig r.statusVig

/-- Conjunction of the eight filters as the claim states them
(case-insensitive substring for text, equality for dropdowns). -/
def specRowOk (f : Filters) (r : Row) : Bool :=
  specTextoOk f.contratoTexto r.contrato && igualOk f.contratoDrop r.contrato &&
  specTextoOk f.setorTexto r.setor && igualOk f.setorDrop r.setor &&
  igualOk f.grupo r.grupo && specTextoOk f.empresaTexto r.empresa &&
  igualOk f.empresaDrop r.empresa && igualOk f.statusVig r.statusVig

theorem filtroTexto_eq_filter (sel : Row → Cell) (input : Option String)
    (d : List Row) :
    filtroTexto sel input d = d.filter (fun r => codeTextoOk input (sel r)) := by
  cases input with
  | none => simp [filtroTexto, textFilterActive, codeTextoOk]
  | some s =>
    by_cases h1 : s = ""
    · subst h1
      simp [filtroTexto, textFilterActive, codeTextoOk, pyStrip, pyStripData]
    · by_cases h2 : pyStrip s = ""
      · simp [filtroTexto, textFilterActive, codeTextoOk, h1, h2]
      · simp [filtroTexto, textFilterActive, codeTextoOk, termoOf, h1, h2]

theorem filtroIgual_eq_filter (sel : Row → Cell) (input : Option String)
    (d : List Row) :
    filtroIgual sel input d = d.filter (fun r => igualOk input (sel r)) := by
  cases input with
  | none => simp [filtroIgual, igualOk]
  | some s =>
    by_cases h : s = ""
    · subst h; simp [filtroIgual, igualOk]
    · simp [filtroIgual, igualOk, h]

theorem atualizar_eq_filter (base : List Row) (f : Filters) :
    atualizar_tabela_contratos base f =
      ((base.filter (codeRowOk f)).map toTableRec,
       (base.filter (codeRowOk f)).map (fun r => StoreRec.mk r (mk_link r))) := by
  unfold atualizar_tabela_contratos
  simp only [filtroTexto_eq_filter, filtroIgual_eq_filter, List.filter_filter]
  have hpred : ∀ r : Row,
      (igualOk f.statusVig r.statusVig && (igualOk f.empresaDrop r.empresa &&
       (codeTextoOk f.empresaTexto r.empresa && (igualOk f.grupo r.grupo &&
       (igualOk f.setorDrop r.setor && (codeTextoOk f.setorTexto r.setor &&
       (igualOk f.contratoDrop r.contrato &&
        codeTextoOk f.contratoTexto r.contrato))))))) = codeRowOk f r := by
    intro r
    unfold codeRowOk
    cases codeTextoOk f.contratoTexto r.contrato <;>
      cases igualOk f.contratoDrop r.contrato <;>
      cases codeTextoOk f.setorTexto r.setor <;>
      cases igualOk f.setorDrop r.setor <;>
      cases igualOk f.grupo r.grupo <;>
      cases codeTextoOk f.empresaTexto r.empresa <;>
      cases igualOk f.empresaDrop r.empresa <;>
      cases igualOk f.statusVig r.statusVig <;> rfl
  simp only [hpred]

end Contratos

namespace Contratos

theorem codeTextoOk_eq_spec (input : Option String) (cell : Cell)
    (h : literalPattern (termoOf input).data = true) :
    codeTextoOk input cell = specTextoOk input cell := by
  cases input with
  | none => rfl
  | some s =>
    unfold codeTextoOk specTextoOk
    by_cases hg : (s == "" || pyStrip s == "") = true
    · simp [hg]
    · simp only [hg, if_false, Bool.if_false_left]
      have hterm : termoOf (some s) = pyLower (pyStrip s) := rfl
      rw [hterm] at h
      exact reSearch_eq_hasSubstr _ h _

/-- Concrete single-row base table used by witnesses and the
counterexample: contract "axb" with no other data. -/
def rowAxb : Row :=
  ⟨some "axb", none, none, none, none, none, none, none, none, none⟩

/-- Filter state typing "a.b" into the contract text filter. -/
def filtersDotPattern : Filters :=
  ⟨some "a.b", none, none, none, none, none, none, none⟩

/-- Filter state typing "ax" into the contract text filter. -/
def filtersLiteral : Filters :=
  ⟨some "AX", none, none, none, none, none, none, none⟩

end Contratos

/-- C1 (counterexample): the claim says every text filter is a literal
substring match, but pandas `str.contains` defaults to `regex=True`, so
the typed text is a regular expression: with base row "axb" and filter
text "a.b" the callback keeps the row while no literal substring match
exists, so the callback output differs from the claimed
substring-conjunction semantics. -/
theorem contratos_filter_substring_claim_false :
    (Contratos.atualizar_tabela_contratos [Contratos.rowAxb]
        Contratos.filtersDotPattern).2 ≠
      ([Contratos.rowAxb].filter
          (Contratos.specRowOk Contratos.filtersDotPattern)).map
        (fun r => Contratos.StoreRec.mk r (Contratos.mk_link r)) := by
  decide

/-- C1 (amended): when no typed text contains a regex metacharacter, the
rows returned by the contracts filter callback are exactly the base rows
satisfying the conjunction of all active filters — case-insensitive
substring match for each text filter, exact equality for each dropdown —
with empty or None inputs imposing no constraint. -/
theorem contratos_filter_conjunction (base : List Contratos.Row)
    (f : Contratos.Filters)
    (h1 : literalPattern (Contratos.termoOf f.contratoTexto).data = true)
    (h2 : literalPattern (Contratos.termoOf f.setorTexto).data = true)
    (h3 : literalPattern (Contratos.termoOf f.empresaTexto).data = true) :
    Contratos.atualizar_tabela_contratos base f =
      ((base.filter (Contratos.specRowOk f)).map Contratos.toTableRec,
       (base.filter (Contratos.specRowOk f)).map
         (fun r => Contratos.StoreRec.mk r (Contratos.mk_link r))) := by
  rw [Contratos.atualizar_eq_filter]
  have hfun : Contratos.codeRowOk f = Contratos.specRowOk f := by
    funext r
    unfold Contratos.codeRowOk Contratos.specRowOk
    rw [Contratos.codeTextoOk_eq_spec _ _ h1, Contratos.codeTextoOk_eq_spec _ _ h2,
      Contratos.codeTextoOk_eq_spec _ _ h3]
  rw [hfun]

/-- C1 (witness): the amended theorem applied to the one-row base and the
metacharacter-free filter text "AX". -/
theorem contratos_filter_conjunction_witness :
    Contratos.atualizar_tabela_contratos [Contratos.rowAxb]
        Contratos.filtersLiteral =
      (([Contratos.rowAxb].filter
          (Contratos.specRowOk Contratos.filtersLiteral)).map Contratos.toTableRec,
       ([Contratos.rowAxb].filter
          (Contratos.specRowOk Contratos.filtersLiteral)).map
         (fun r => Contratos.StoreRec.mk r (Contratos.mk_link r))) :=
  contratos_filter_conjunction [Contratos.rowAxb] Contratos.filtersLiteral
    (by decide) (by decide) (by decide)

/-- C9: the contracts filter callback is deterministic — its output is a
pure function of the base table and the eight filter arguments, so two
invocations with identical base tables and identical arguments return
identical table records and identical store records. -/
theorem contratos_callback_deterministic (base1 base2 : List Contratos.Row)
    (f1 f2 : Contratos.Filters) (hb : base1 = base2) (hf : f1 = f2) :
    Contratos.atualizar_tabela_contratos base1 f1 =
      Contratos.atualizar_tabela_contratos base2 f2 := by
  subst hb
  subst hf
  rfl

/-- C9 (witness): two invocations on the concrete one-row table with the
same filter state coincide. -/
theorem contratos_callback_deterministic_witness :
    Contratos.atualizar_tabela_contratos [Contratos.rowAxb]
        Contratos.filtersLiteral =
      Contratos.atualizar_tabela_contratos [Contratos.rowAxb]
        Contratos.filtersLiteral :=
  contratos_callback_deterministic [Contratos.rowAxb] [Contratos.rowAxb]
    Contratos.filtersLiteral Contratos.filtersLiteral rfl rfl

namespace Contratos

/-- Embedding of `calcular_status` (contratos.py lines 77-85).  Dates are
day numbers; `hoje` is today's day number; `none` is NaT; `dias` is the
day difference `(data_termino_exec.date() - hoje).days`. -/
def calcular_status (hoje : Int) : Option Int → String
  | none => ""
  | some d =>
    if d - hoje > 10 then "Vigente"
    else if d - hoje < 0 then "Vencido"
    else "Próximo do Vencimento"

end Contratos

/-- C6: `Status da Vigência` is a total trichotomy over the remaining
days until `Término da Execução`: "Vigente" iff more than 10 days remain,
"Vencido" iff the remaining days are negative, "Próximo do Vencimento"
iff they lie in [0, 10], the empty string iff the date is missing, and no
other value ever occurs. -/
theorem calcular_status_trichotomy (hoje : Int) (od : Option Int) :
    (Contratos.calcular_status hoje od = "Vigente" ↔
      ∃ d, od = some d ∧ 10 < d - hoje) ∧
    (Contratos.calcular_status hoje od = "Vencido" ↔
      ∃ d, od = some d ∧ d - hoje < 0) ∧
    (Contratos.calcular_status hoje od = "Próximo do Vencimento" ↔
      ∃ d, od = some d ∧ 0 ≤ d - hoje ∧ d - hoje ≤ 10) ∧
    (Contratos.calcular_status hoje od = "" ↔ od = none) ∧
    (Contratos.calcular_status hoje od = "" ∨
     Contratos.calcular_status hoje od = "Vigente" ∨
     Contratos.calcular_status hoje od = "Vencido" ∨
     Contratos.calcular_status hoje od = "Próximo do Vencimento") := by
  have hVV : ("Vigente" : String) ≠ "Vencido" := by decide
  have hVP : ("Vigente" : String) ≠ "Próximo do Vencimento" := by decide
  have hVE : ("Vigente" : String) ≠ "" := by decide
  have hcVP : ("Vencido" : String) ≠ "Próximo do Vencimento" := by decide
  have hcVE : ("Vencido" : String) ≠ "" := by decide
  have hPE : ("Próximo do Vencimento" : String) ≠ "" := by decide
  cases od with
  | none =>
    refine ⟨?_, ?_, ?_, ?_, ?_⟩ <;>
      simp [Contratos.calcular_status, hVE.symm, hcVE.symm, hPE.symm]
  | some d =>
    simp only [Contratos.calcular_status]
    split_ifs with hgt hlt
    · refine ⟨?_, ?_, ?_, ?_, ?_⟩ <;>
        simp [hVV, hVP, hVE, Option.some.injEq] <;> omega
    · refine ⟨?_, ?_, ?_, ?_, ?_⟩ <;>
        simp [hVV.symm, hcVP, hcVE, Option.some.injEq] <;> omega
    · refine ⟨?_, ?_, ?_, ?_, ?_⟩ <;>
        simp [hVP.symm, hcVP.symm, hPE, Option.some.injEq] <;> omega

namespace Contratos

/-- The report columns of the contracts PDF (contratos.py lines 525-535). -/
def reportCols : List String :=
  ["Contrato", "Setor", "Grupo", "Objeto", "Empresa Contratada",
   "Início da Vigência", "Término da Execução", "Término da Vigência",
   "Status da Vigência"]

/-- Columns of the DataFrame rebuilt from the store records (the full
base row, its `Link Comprasnet` column and the added markdown column). -/
def storeKeys : List String :=
  ["Contrato", "Setor", "Grupo", "Objeto", "Empresa Contratada",
   "Início da Vigência", "Término da Execução", "Término da Vigência",
   "Status da Vigência", "Link Comprasnet", "Contrato_markdown"]

/-- Column access on a store record (a dict of the DataFrame row). -/
def storeRecGet (sr : StoreRec) (c : String) : Option String :=
  if c == "Contrato" then sr.row.contrato
  else if c == "Setor" then sr.row.setor
  else if c == "Grupo" then sr.row.grupo
  else if c == "Objeto" then sr.row.objeto
  else if c == "Empresa Contratada" then sr.row.empresa
  else if c == "Início da Vigência" then sr.row.inicioVig
  else if c == "Término da Execução" then sr.row.terminoExec
  else if c == "Término da Vigência" then sr.row.terminoVig
  else if c == "Status da Vigência" then sr.row.statusVig
  else if c == "Link Comprasnet" then sr.row.link
  else if c == "Contrato_markdown" then some sr.contratoMarkdown
  else none

/-- Column access on a base row, for the nine report columns. -/
def rowGet (r : Row) (c : String) : Option String :=
  if c == "Contrato" then r.contrato
  else if c == "Setor" then r.setor
  else if c == "Grupo" then r.grupo
  else if c == "Objeto" then r.objeto
  else if c == "Empresa Contratada" then r.empresa
  else if c == "Início da Vigência" then r.inicioVig
  else if c == "Término da Execução" then r.terminoExec
  else if c == "Término da Vigência" then r.terminoVig
  else if c == "Status da Vigência" then r.statusVig
  else none

/-- Embedding of the callback `gerar_pdf_contratos` (contratos.py lines
489-574), restricted to the data content of the generated PDF table: the
guard `if not n or not dados_contratos: return None`, then the header row
followed by one body row per store record, each cell `str(row[c])`
wrapped in a Paragraph. -/
def gerar_pdf_contratos (n : Nat) (dados : List StoreRec) :
    Option (List (List String)) :=
  if n == 0 || dados.isEmpty then none
  else
    let cols := reportCols.filter (fun c => storeKeys.contains c)
    some (cols :: dados.map (fun sr => cols.map (fun c => cellStr (storeRecGet sr c))))

/-- Empty filter state (all eight inputs cleared). -/
def filtersNone : Filters := ⟨none, none, none, none, none, none, none, none⟩

end Contratos

/-- C3: the body rows of the PDF produced by the download callback from
the filtered-data store are exactly the filtered rows of the base table,
in the same order, projected onto the nine report columns — the PDF
mirrors the filtered on-screen view row for row. -/
theorem contratos_pdf_mirrors_filtered_view (base : List Contratos.Row)
    (f : Contratos.Filters) (n : Nat) (hn : n ≠ 0)
    (hne : (Contratos.atualizar_tabela_contratos base f).2 ≠ []) :
    Contratos.gerar_pdf_contratos n
        (Contratos.atualizar_tabela_contratos base f).2 =
      some (Contratos.reportCols ::
        (base.filter (Contratos.codeRowOk f)).map
          (fun r => Contratos.reportCols.map
            (fun c => Contratos.cellStr (Contratos.rowGet r c)))) := by
  rw [Contratos.atualizar_eq_filter] at hne ⊢
  unfold Contratos.gerar_pdf_contratos
  have hcols :
      Contratos.reportCols.filter (fun c => Contratos.storeKeys.contains c) =
        Contratos.reportCols := by decide
  have hguard :
      (n == 0 ||
        ((base.filter (Contratos.codeRowOk f)).map
          (fun r => Contratos.StoreRec.mk r (Contratos.mk_link r))).isEmpty) = false := by
    have h1 : (n == 0) = false := by
      cases n with
      | zero => exact absurd rfl hn
      | succ k => rfl
    have h2 :
        ((base.filter (Contratos.codeRowOk f)).map
          (fun r => Contratos.StoreRec.mk r (Contratos.mk_link r))).isEmpty = false := by
      cases hlist : (base.filter (Contratos.codeRowOk f)).map
          (fun r => Contratos.StoreRec.mk r (Contratos.mk_link r)) with
      | nil => exact absurd hlist hne
      | cons a t => rfl
    rw [h1, h2]
    rfl
  rw [hguard]
  simp only [hcols, List.map_map, if_false, Bool.false_eq_true]
  rfl

/-- C3 (witness): the PDF theorem applied to the one-row base with all
filters cleared and one button click. -/
theorem contratos_pdf_mirrors_filtered_view_witness :
    Contratos.gerar_pdf_contratos 1
        (Contratos.atualizar_tabela_contratos [Contratos.rowAxb]
          Contratos.filtersNone).2 =
      some (Contratos.reportCols ::
        ([Contratos.rowAxb].filter (Contratos.codeRowOk Contratos.filtersNone)).map
          (fun r => Contratos.reportCols.map
            (fun c => Contratos.cellStr (Contratos.rowGet r c)))) :=
  contratos_pdf_mirrors_filtered_view [Contratos.rowAxb] Contratos.filtersNone 1
    (by decide) (by decide)

namespace Extrato

/-- A row of the extract-page base table: the `Contrato` cell (the only
column the callback guard reads) plus the rest of the row, kept abstract. -/
structure ExtratoRow (α : Type) where
  contrato : Cell
  rest : α
deriving DecidableEq, Repr

/-- The nine outputs of `atualizar_tabelas_extrato_cb`: eight table-style
outputs (each a list of records, with record shape abstracted to ρ) and
the contract-number display string. -/
structure ExtratoOut (ρ : Type) where
  info : List ρ
  objeto : List ρ
  valores : List ρ
  fisc : List ρ
  fiscColumns : List ρ
  garantia : List ρ
  evolucao : List ρ
  comprasnetLink : List ρ
  numeroContrato : String
deriving DecidableEq, Repr

/-- The early-return value `[], [], [], [], [], [], [], [], ""`. -/
def emptyOut {ρ : Type} : ExtratoOut ρ := ⟨[], [], [], [], [], [], [], [], ""⟩

/-- Row selection of the callback:
`df["Contrato"].astype(str).str.contains(str(contrato).strip(), case=False, na=False)`.
`case=False` is modeled by lowering both sides, which is exact on the
dot/literal regex fragment the theorems use. -/
def rowMatches {α : Type} (s : String) (r : ExtratoRow α) : Bool :=
  pyContains (pyLower (Contratos.cellStr r.contrato)) (pyLower (pyStrip s))

/-- Embedding of `atualizar_tabelas_extrato_cb` (extrato_contrato.py
lines 1140-1284).  Only the guard logic is concrete; the long main branch
(lines 1153-1284) is a parameter, so the guard theorems hold for every
possible main-branch computation — the guard never reaches it. -/
def atualizar_tabelas_extrato {α ρ : Type}
    (mainBranch : List (ExtratoRow α) → ExtratoOut ρ)
    (base : List (ExtratoRow α)) (contrato : Option String) : ExtratoOut ρ :=
  match contrato with
  | none => emptyOut
  | some s =>
    if s == "" then emptyOut
    else
      let dff := base.filter (rowMatches s)
      if dff.isEmpty then emptyOut
      else mainBranch dff

end Extrato

/-- C5 (amended): when the required input is missing the extract-page
callback returns the empty list for every table output and the empty
string for the contract-number display, and performs nothing else: this
holds when the contract filter is None or empty, and likewise when the
stripped filter text has no regex metacharacter and no row of the base
table contains it case-insensitively — for every possible main-branch
computation.  (In general `str.contains` interprets the filter as a
regular expression, so absence of substring containment does not imply
the empty result; see the counterexample.) -/
theorem extrato_missing_input_returns_empty {α ρ : Type}
    (mainBranch : List (Extrato.ExtratoRow α) → Extrato.ExtratoOut ρ)
    (base : List (Extrato.ExtratoRow α)) (contrato : Option String)
    (h : contrato = none ∨ contrato = some "" ∨
      (∃ s, contrato = some s ∧
        literalPattern (pyLower (pyStrip s)).data = true ∧
        ∀ r ∈ base,
          hasSubstr (pyLower (Contratos.cellStr r.contrato)).data
            (pyLower (pyStrip s)).data = false)) :
    Extrato.atualizar_tabelas_extrato mainBranch base contrato =
      ⟨[], [], [], [], [], [], [], [], ""⟩ := by
  rcases h with h | h | ⟨s, hs, hlit, hnone⟩
  · subst h; rfl
  · subst h; rfl
  · subst hs
    by_cases hse : s = ""
    · subst hse; rfl
    · have hbeq : (s == "") = false := by
        cases hb : s == "" with
        | false => rfl
        | true => exact absurd (by simpa using hb) hse
      have hfil : base.filter (Extrato.rowMatches s) = [] := by
        rw [List.filter_eq_nil_iff]
        intro r hr
        have := hnone r hr
        simp only [Extrato.rowMatches, pyContains]
        rw [reSearch_eq_hasSubstr _ hlit]
        simp [this]
      simp [Extrato.atualizar_tabelas_extrato, hbeq, hfil, Extrato.emptyOut]

/-- C5 (witness): the guard theorem applied with a missing filter, a
nonempty base row and a main branch that would return nonempty tables. -/
theorem extrato_missing_input_returns_empty_witness :
    Extrato.atualizar_tabelas_extrato
        (fun _ => ⟨[()], [()], [()], [()], [()], [()], [()], [()], "X"⟩)
        [Extrato.ExtratoRow.mk (some "042/2023") ()] none =
      ⟨[], [], [], [], [], [], [], [], ""⟩ :=
  extrato_missing_input_returns_empty
    (fun _ => ⟨[()], [()], [()], [()], [()], [()], [()], [()], "X"⟩)
    [Extrato.ExtratoRow.mk (some "042/2023") ()] none (Or.inl rfl)

/-- C5 (counterexample to the unrestricted claim): with filter text
"a.b" and a base table whose only Contrato is "axb", no row contains the
filter as a substring, yet `str.contains` is a regex search, so the dot
matches the "x": the filtered table is the whole base, the guard does
not return the empty outputs, and the callback hands the row to the
main branch — the claimed empty result is false. -/
theorem extrato_no_containment_claim_false :
    (∀ r ∈ [Extrato.ExtratoRow.mk (some "axb") ()],
      hasSubstr (pyLower (Contratos.cellStr r.contrato)).data
        (pyLower (pyStrip "a.b")).data = false) ∧
    [Extrato.ExtratoRow.mk (some "axb") ()].filter
        (Extrato.rowMatches "a.b") =
      [Extrato.ExtratoRow.mk (some "axb") ()] ∧
    Extrato.atualizar_tabelas_extrato
        (fun dff => ⟨dff.map (fun _ => ()), [], [], [], [], [], [], [],
          "axb"⟩)
        [Extrato.ExtratoRow.mk (some "axb") ()] (some "a.b") ≠
      (⟨[], [], [], [], [], [], [], [], ""⟩ : Extrato.ExtratoOut Unit) := by
  decide

namespace App

/-- A Dash callback registration: its Output, Input and State component
properties, each a (component id, property) pair.  Dash re-runs a
callback exactly when one of its Input properties changes; State
properties are read but never trigger. -/
structure CallbackDecl where
  outputs : List (String × String)
  inputs : List (String × String)
  states : List (String × String)
deriving DecidableEq, Repr

/-- Every callback registered by the application, transcribed from the
`@dash.callback` / `@app.callback` decorators of src/app.py and the six
page modules. -/
def registeredCallbacks : List CallbackDecl :=
  [ -- app.py: atualizar_menu
    ⟨[("sidebar-menu", "children")], [("url", "pathname")], []⟩,
    -- contratos.py: atualizar_tabela_contratos
    ⟨[("tabela_contratos", "data"), ("store_dados_contratos", "data")],
     [("filtro_contrato_texto", "value"), ("filtro_contrato_dropdown", "value"),
      ("filtro_setor_texto_ct", "value"), ("filtro_setor_dropdown_ct", "value"),
      ("filtro_grupo", "value"), ("filtro_empresa_texto", "value"),
      ("filtro_empresa", "value"), ("filtro_status_vig", "value")], []⟩,
    -- contratos.py: limpar_filtros_contratos
    ⟨[("filtro_contrato_texto", "value"), ("filtro_contrato_dropdown", "value"),
      ("filtro_setor_texto_ct", "value"), ("filtro_setor_dropdown_ct", "value"),
      ("filtro_grupo", "value"), ("filtro_empresa_texto", "value"),
      ("filtro_empresa", "value"), ("filtro_status_vig", "value")],
     [("btn_limpar_filtros_contratos", "n_clicks")], []⟩,
    -- contratos.py: gerar_pdf_contratos
    ⟨[("download_relatorio_contratos", "data")],
     [("btn_download_relatorio_contratos", "n_clicks")],
     [("store_dados_contratos", "data")]⟩,
    -- extrato_contrato.py: atualizar_tabelas_extrato_cb
    ⟨[("tabela_extrato_info", "data"), ("tabela_extrato_objeto", "data"),
      ("tabela_extrato_valores", "data"), ("tabela_extrato_fiscalizacao", "data"),
      ("tabela_extrato_fiscalizacao", "columns"), ("tabela_extrato_garantia", "data"),
      ("tabela_extrato_evolucao", "data"), ("tabela_extrato_comprasnet", "data"),
      ("valor_numero_contrato", "children")],
     [("filtro_contrato_extrato", "value")], []⟩,
    -- extrato_contrato.py: limpar_filtros_extrato
    ⟨[("filtro_contrato_extrato", "value")],
     [("btn_limpar_filtros_extrato", "n_clicks")], []⟩,
    -- extrato_contrato.py: download_relatorio_pdf
    ⟨[("download_relatorio_extrato", "data")],
     [("btn_download_relatorio_extrato", "n_clicks")],
     [("filtro_contrato_extrato", "value")]⟩,
    -- fracionamento_pdm.py: atualizar_opcoes_pdm
    ⟨[("filtro_pdm_dropdown_itajuba", "options")],
     [("filtro_pdm_texto_itajuba", "value")],
     [("filtro_pdm_dropdown_itajuba", "value")]⟩,
    -- fracionamento_pdm.py: atualizar_tabela_limite_itajuba_pdm
    ⟨[("tabela_limite_itajuba_pdm", "data"), ("store_dados_limite_itajuba_pdm", "data")],
     [("filtro_pdm_texto_itajuba", "value"), ("filtro_pdm_dropdown_itajuba", "value")], []⟩,
    -- fracionamento_pdm.py: limpar_filtros_limite_itajuba_pdm
    ⟨[("filtro_pdm_texto_itajuba", "value"), ("filtro_pdm_dropdown_itajuba", "value")],
     [("btn_limpar_filtros_limite_itajuba_pdm", "n_clicks")], []⟩,
    -- fracionamento_pdm.py: gerar_pdf_limite_itajuba_pdm
    ⟨[("download_relatorio_limite_itajuba_pdm", "data")],
     [("btn_download_relatorio_limite_itajuba_pdm", "n_clicks")],
     [("store_dados_limite_itajuba_pdm", "data")]⟩,
    -- statusdoprocesso.py: atualizar_tabelas
    ⟨[("tabela_status_esquerda", "data"), ("tabela_status_direita", "data"),
      ("store_dados_status", "data")],
     [("filtro_processo_texto", "value"), ("filtro_processo", "value"),
      ("filtro_requisitante", "value"), ("filtro_objeto", "value"),
      ("filtro_modalidade", "value")], []⟩,
    -- statusdoprocesso.py: limpar_filtros_status
    ⟨[("filtro_processo_texto", "value"), ("filtro_processo", "value"),
      ("filtro_requisitante", "value"), ("filtro_objeto", "value"),
      ("filtro_modalidade", "value")],
     [("btn_limpar_filtros_status", "n_clicks")], []⟩,
    -- statusdoprocesso.py: gerar_relatorio_status
    ⟨[("download_relatorio_status", "data")],
     [("btn_download_relatorio_status", "n_clicks")],
     [("store_dados_status", "data")]⟩,
    -- portarias_planejamento.py: atualizar_tabela_portarias_planej
    ⟨[("tabela_portarias_planej", "data"), ("store_dados_port_planej", "data")],
     [("filtro_setor_texto_planej", "value"), ("filtro_setor_dropdown_planej", "value"),
      ("filtro_servidor_texto_planej", "value"), ("filtro_servidor_dropdown_planej", "value"),
      ("filtro_tipo_planej", "value")], []⟩,
    -- portarias_planejamento.py: limpar_filtros_port_planej
    ⟨[("filtro_setor_texto_planej", "value"), ("filtro_setor_dropdown_planej", "value"),
      ("filtro_servidor_texto_planej", "value"), ("filtro_servidor_dropdown_planej", "value"),
      ("filtro_tipo_planej", "value")],
     [("btn_limpar_filtros_port_planej", "n_clicks")], []⟩,
    -- portarias_planejamento.py: download PDF callback
    ⟨[("download_relatorio_port_planej", "data")],
     [("btn_download_relatorio_port_planej", "n_clicks")],
     [("store_dados_port_planej", "data")]⟩ ]

/-- The id of the hourly `dcc.Interval` component declared in app.py. -/
def intervalId : String := "interval-atualizacao"

/-- Callbacks that fire when a given component property changes. -/
def callbacksTriggeredBy (cid : String) : List CallbackDecl :=
  registeredCallbacks.filter (fun cb => cb.inputs.any (fun i => i.1 == cid))

/-- Component properties a tick of the given component can update. -/
def propertiesUpdatedBy (cid : String) : List (String × String) :=
  ((callbacksTriggeredBy cid).map CallbackDecl.outputs).flatten

end App

/-- C4: refuted on the code.  No registered callback has the hourly
`interval-atualizacao` component among its Inputs, so a tick of the
interval triggers no callback and can update no component property:
the base data of every page remains the single fetch performed at module
import, and no periodic re-fetch ever happens. -/
theorem interval_tick_triggers_nothing :
    App.callbacksTriggeredBy App.intervalId = [] ∧
    App.propertiesUpdatedBy App.intervalId = [] ∧
    ∀ cb ∈ App.registeredCallbacks,
      ∀ inp ∈ cb.inputs, inp.1 ≠ App.intervalId := by
  refine ⟨by decide, by decide, by decide⟩

/-- Numeric value of a decimal digit character. -/
def charDigit (c : Char) : Nat := c.toNat - 48

/-- Decimal digit character of a value below ten. -/
def digitChar (d : Nat) : Char := Char.ofNat (48 + d)

/-- Value of a big-endian digit-character string. -/
def digitsValBE (l : List Char) : Nat := l.foldl (fun a c => 10 * a + charDigit c) 0

/-- Value of a little-endian digit list. -/
def fromDigitsLE : List Nat → Nat
  | [] => 0
  | d :: ds => d + 10 * fromDigitsLE ds

/-- Little-endian decimal digits of a natural number, with explicit fuel
so that the recursion is structural. -/
def natDigitsLEAux : Nat → Nat → List Nat
  | 0, _ => []
  | fuel + 1, n => if n == 0 then [] else n % 10 :: natDigitsLEAux fuel (n / 10)

/-- Little-endian decimal digits of a natural number (empty for zero). -/
def natDigitsLE (n : Nat) : List Nat := natDigitsLEAux n n

/-- Unsigned decimal parsing: digits with at most one dot and at least
one digit, as accepted by Python `float()` on plain decimal literals. -/
def pyFloatUnsigned (u : List Char) : Option ℚ :=
  let ip := u.takeWhile (fun c => c != '.')
  let rest := u.dropWhile (fun c => c != '.')
  match rest with
  | [] =>
      if !ip.isEmpty && ip.all Char.isDigit then some ((digitsValBE ip : ℚ))
      else none
  | _ :: frac =>
      if (!ip.isEmpty || !frac.isEmpty) && ip.all Char.isDigit && frac.all Char.isDigit then
        some ((digitsValBE ip : ℚ) + (digitsValBE frac : ℚ) / (10 : ℚ) ^ frac.length)
      else none

/-- Embedding of Python `float(s)` on plain signed decimal literals
(sign, digits, one optional dot; exponents, inf/nan and underscores are
outside the fragment this development evaluates it on and return none). -/
def pyFloat (l0 : List Char) : Option ℚ :=
  match pyStripData l0 with
  | [] => pyFloatUnsigned []
  | c :: rest =>
    if c == '-' then (pyFloatUnsigned rest).map (fun q => -q)
    else if c == '+' then pyFloatUnsigned rest
    else pyFloatUnsigned (c :: rest)

/-- Thousands grouping of a little-endian digit string: a comma after
every third digit, as Python format(v, ",.2f") inserts. -/
def group3 : List Char → Nat → List Char
  | [], _ => []
  | d :: ds, 0 => ',' :: d :: group3 ds 2
  | d :: ds, k + 1 => d :: group3 ds k

/-- Big-endian comma-grouped decimal digits of a natural number. -/
def intGrouped (n : Nat) : List Char :=
  if n == 0 then ['0'] else (group3 ((natDigitsLE n).map digitChar) 3).reverse

/-- The two decimal places of a cent remainder below one hundred. -/
def twoFrac (r : Nat) : List Char := [digitChar (r / 10), digitChar (r % 10)]

/-- Embedding of Python `f"{v:,.2f}"`: sign, comma-grouped integer part,
dot, two decimals.  The cent value is the floor of `v * 100 + 1/2`; the
round-trip theorems use it only where `v * 100` is an integer, where no
rounding occurs and this agrees with Python exactly. -/
def formatComma2 (v : ℚ) : List Char :=
  let c : Int := Int.floor (v * 100 + 1 / 2)
  let a : Nat := c.natAbs
  let body := intGrouped (a / 100) ++ '.' :: twoFrac (a % 100)
  if c < 0 then '-' :: body else body

/-- Single-character replacement, the effect of `str.replace(a, b)` for
one-character arguments. -/
def replCh (a b : Char) (l : List Char) : List Char :=
  l.map (fun c => if c == a then b else c)

/-- The separator swap of both currency formatters:
`.replace(",", "X").replace(".", ",").replace("X", ".")`. -/
def swapSeps (l : List Char) : List Char :=
  replCh 'X' '.' (replCh '.' ',' (replCh ',' 'X' l))

/-- Non-overlapping left-to-right removal of the substring "R$", the
effect of `str.replace("R$", "")`. -/
def removeRS : List Char → List Char
  | [] => []
  | [c] => [c]
  | c :: d :: t =>
    if c == 'R' && d == '$' then removeRS t
    else c :: removeRS (d :: t)

namespace Extrato

/-- Embedding of `formatar_moeda` (extrato_contrato.py lines 61-69):
None/NaN and unconvertible values give "", numbers give
`f"R$ {v:,.2f}"` with the separators swapped to Brazilian convention. -/
def formatar_moeda (v : Option ℚ) : String :=
  match v with
  | none => ""
  | some q => String.mk ('R' :: '$' :: ' ' :: swapSeps (formatComma2 q))

/-- Embedding of `conv_moeda_br` (extrato_contrato.py lines 48-59):
strip, reject "" and "-", drop "R$", spaces and thousands dots, turn the
decimal comma into a dot, then `float(...)` (None on failure). -/
def conv_moeda_br (v : String) : Option ℚ :=
  let t := pyStripData v.data
  if t == [] || t == ['-'] then none
  else
    let t1 := removeRS t
    let t2 := t1.filter (fun c => c != ' ')
    let t3 := t2.filter (fun c => c != '.')
    let t4 := t3.map (fun c => if c == ',' then '.' else c)
    pyFloat t4

end Extrato

namespace Pdm

/-- One CSV row of the "Limite de Gasto - Itajubá" sheet: the PDM cell,
the description cell (already under its renamed label) and the
`Unnamed: 7` cell that carries the committed amount when present. -/
structure InputRow where
  pdm : Cell
  descricao : Cell
  unnamed7 : Cell
deriving DecidableEq, Repr

/-- A row of the loaded PDM spending-limit base table. -/
structure PdmRow where
  pdm : String
  descricao : Cell
  valorEmpenhado : Option ℚ
  limiteDispensa : ℚ
  saldoContratacao : Option ℚ
deriving DecidableEq, Repr

/-- Removal of a trailing ".0", the regex `\.0$` replacement. -/
def stripDot0 (l : List Char) : List Char :=
  match l.reverse with
  | '0' :: '.' :: rest => rest.reverse
  | _ => l

/-- Left zero-padding to five characters, `str.zfill(5)` on digit
strings. -/
def zfill5 (l : List Char) : List Char :=
  List.replicate (5 - l.length) '0' ++ l

/-- Embedding of `carregar_dados_limite_pdm` (fracionamento_pdm.py lines
43-102): PDM normalized to five digits; `Valor Empenhado` parsed from
`Unnamed: 7` (pt-BR separators) when that column exists and 0.0
otherwise; `Limite da Dispensa` the constant 65492.11; the balance their
difference (NaN propagates through the subtraction). -/
def carregar_dados_limite_pdm (hasUnnamed7 : Bool) (rows : List InputRow) :
    List PdmRow :=
  rows.map (fun r =>
    let pdm := String.mk (zfill5 ((stripDot0 (Contratos.cellStr r.pdm).data).filter Char.isDigit))
    let ve : Option ℚ :=
      if hasUnnamed7 then
        pyFloat (((Contratos.cellStr r.unnamed7).data.filter (fun c => c != '.')).map
          (fun c => if c == ',' then '.' else c))
      else some 0
    let limite : ℚ := 6549211 / 100
    ⟨pdm, r.descricao, ve, limite, ve.map (fun x => limite - x)⟩)

/-- Local `fmt_moeda` of the PDM filter callback (lines 456-464): same
Brazilian formatting as the extract page, "" for NaN. -/
def fmt_moeda (v : Option ℚ) : String :=
  match v with
  | none => ""
  | some q => String.mk ('R' :: '$' :: ' ' :: swapSeps (formatComma2 q))

/-- A display record of `tabela_limite_itajuba_pdm`: PDM, description and
the three formatted currency columns. -/
structure DisplayRec where
  pdm : String
  descricao : Cell
  valorEmpenhadoFmt : String
  limiteDispensaFmt : String
  saldoContratacaoFmt : String
deriving DecidableEq, Repr

/-- Projection of a base row onto the display record. -/
def toDisplay (r : PdmRow) : DisplayRec :=
  ⟨r.pdm, r.descricao, fmt_moeda r.valorEmpenhado,
   fmt_moeda (some r.limiteDispensa), fmt_moeda r.saldoContratacao⟩

/-- Embedding of the callback `atualizar_tabela_limite_itajuba_pdm`
(fracionamento_pdm.py lines 420-483): text filter (pandas str.contains on
the PDM column), multi-select isin filter, then the formatted display
records and the unchanged store records. -/
def atualizar_tabela_limite_itajuba_pdm (base : List PdmRow)
    (pdmTexto : Option String) (pdmLista : Option (List String)) :
    List DisplayRec × List PdmRow :=
  let dff :=
    if Contratos.textFilterActive pdmTexto then
      base.filter (fun r => pyContains (pyLower r.pdm) (Contratos.termoOf pdmTexto))
    else base
  let dff :=
    match pdmLista with
    | none => dff
    | some l => if l.isEmpty then dff else dff.filter (fun r => l.contains r.pdm)
  (dff.map toDisplay, dff)

end Pdm

/-- C7: every row of the loaded PDM base table has
`Limite da Dispensa = 65492.11` and
`Saldo para contratação = 65492.11 - Valor Empenhado` (NaN propagating),
`Valor Empenhado = 0.0` on every row when the source column `Unnamed: 7`
is absent, and the filter callback never recomputes these columns: every
store record it returns is one of the loaded base rows, unchanged. -/
theorem pdm_limite_saldo_invariant (hasU7 : Bool) (rows : List Pdm.InputRow) :
    (∀ r ∈ Pdm.carregar_dados_limite_pdm hasU7 rows,
      r.limiteDispensa = 6549211 / 100 ∧
      r.saldoContratacao = r.valorEmpenhado.map (fun x => 6549211 / 100 - x)) ∧
    (hasU7 = false → ∀ r ∈ Pdm.carregar_dados_limite_pdm hasU7 rows,
      r.valorEmpenhado = some 0) ∧
    (∀ (texto : Option String) (lista : Option (List String)),
      ∀ r ∈ (Pdm.atualizar_tabela_limite_itajuba_pdm
          (Pdm.carregar_dados_limite_pdm hasU7 rows) texto lista).2,
        r ∈ Pdm.carregar_dados_limite_pdm hasU7 rows) := by
  refine ⟨?_, ?_, ?_⟩
  · intro r hr
    rw [Pdm.carregar_dados_limite_pdm, List.mem_map] at hr
    obtain ⟨r0, _, hEq⟩ := hr
    subst hEq
    exact ⟨rfl, rfl⟩
  · intro h7 r hr
    subst h7
    rw [Pdm.carregar_dados_limite_pdm, List.mem_map] at hr
    obtain ⟨r0, _, hEq⟩ := hr
    subst hEq
    rfl
  · intro texto lista r hr
    unfold Pdm.atualizar_tabela_limite_itajuba_pdm at hr
    set base := Pdm.carregar_dados_limite_pdm hasU7 rows with hbase
    simp only at hr
    have step1 : ∀ (d : List Pdm.PdmRow),
        (if Contratos.textFilterActive texto then
          d.filter (fun r => pyContains (pyLower r.pdm) (Contratos.termoOf texto))
        else d) = d ∨
        (if Contratos.textFilterActive texto then
          d.filter (fun r => pyContains (pyLower r.pdm) (Contratos.termoOf texto))
        else d) = d.filter (fun r => pyContains (pyLower r.pdm) (Contratos.termoOf texto)) := by
      intro d
      by_cases h : Contratos.textFilterActive texto = true
      · right; rw [if_pos h]
      · left; rw [if_neg h]
    rcases step1 base with h1 | h1 <;> rw [h1] at hr
    · cases lista with
      | none => exact hr
      | some l =>
        by_cases hl : l.isEmpty = true
        · simpa [hl] using hr
        · simp only [hl, if_false, Bool.false_eq_true] at hr
          exact (List.mem_filter.mp hr).1
    · cases lista with
      | none => exact (List.mem_filter.mp hr).1
      | some l =>
        by_cases hl : l.isEmpty = true
        · simp only [hl, if_true] at hr
          exact (List.mem_filter.mp hr).1
        · simp only [hl, if_false, Bool.false_eq_true] at hr
          exact (List.mem_filter.mp (List.mem_filter.mp hr).1).1

/-- C7 (witness): the invariant theorem applied to a one-row sheet
without the `Unnamed: 7` column. -/
theorem pdm_limite_saldo_invariant_witness :
    (∀ r ∈ Pdm.carregar_dados_limite_pdm false [Pdm.InputRow.mk (some "123.0") (some "desc") none],
      r.limiteDispensa = 6549211 / 100 ∧
      r.saldoContratacao = r.valorEmpenhado.map (fun x => 6549211 / 100 - x)) ∧
    (false = false → ∀ r ∈ Pdm.carregar_dados_limite_pdm false [Pdm.InputRow.mk (some "123.0") (some "desc") none],
      r.valorEmpenhado = some 0) ∧
    (∀ (texto : Option String) (lista : Option (List String)),
      ∀ r ∈ (Pdm.atualizar_tabela_limite_itajuba_pdm
          (Pdm.carregar_dados_limite_pdm false [Pdm.InputRow.mk (some "123.0") (some "desc") none]) texto lista).2,
        r ∈ Pdm.carregar_dados_limite_pdm false [Pdm.InputRow.mk (some "123.0") (some "desc") none]) :=
  pdm_limite_saldo_invariant false [Pdm.InputRow.mk (some "123.0") (some "desc") none]

theorem isDigit_beq_false (c x : Char) (h : c.isDigit = true)
    (hx : x.isDigit = false) : (c == x) = false := by
  cases hc : c == x with
  | false => rfl
  | true =>
    have hcx : c = x := by simpa using hc
    rw [hcx] at h
    rw [h] at hx
    cases hx

theorem isDigit_not_isWS (c : Char) (h : c.isDigit = true) : isWS c = false := by
  cases hw : isWS c with
  | false => rfl
  | true =>
    have hmem : c ∈ pyWS := by simpa [isWS] using hw
    simp only [pyWS, List.mem_cons, List.not_mem_nil, or_false] at hmem
    rcases hmem with h1 | h1 | h1 | h1 | h1 | h1 <;>
      (subst h1; exact absurd h (by decide))

theorem charDigit_digitChar (d : ℕ) (hd : d < 10) :
    charDigit (digitChar d) = d := by
  interval_cases d <;> decide

theorem digitChar_isDigit (d : ℕ) (hd : d < 10) :
    (digitChar d).isDigit = true := by
  interval_cases d <;> decide

theorem natDigitsLEAux_lt10 (fuel : ℕ) :
    ∀ n d, d ∈ natDigitsLEAux fuel n → d < 10 := by
  induction fuel with
  | zero => intro n d hd; simp [natDigitsLEAux] at hd
  | succ k ih =>
    intro n d hd
    by_cases hn : n = 0
    · subst hn; simp [natDigitsLEAux] at hd
    · have hbeq : (n == 0) = false := by simpa using hn
      simp only [natDigitsLEAux, hbeq, Bool.false_eq_true, if_false,
        List.mem_cons] at hd
      rcases hd with hd | hd
      · subst hd; exact Nat.mod_lt n (by norm_num)
      · exact ih (n / 10) d hd

theorem fromDigitsLE_natDigitsLEAux (fuel : ℕ) :
    ∀ n, n ≤ fuel → fromDigitsLE (natDigitsLEAux fuel n) = n := by
  induction fuel with
  | zero => intro n hn; interval_cases n; rfl
  | succ k ih =>
    intro n hn
    by_cases hz : n = 0
    · subst hz; rfl
    · have hbeq : (n == 0) = false := by simpa using hz
      simp only [natDigitsLEAux, hbeq, Bool.false_eq_true, if_false,
        fromDigitsLE]
      have hdiv : n / 10 ≤ k := by
        have h1 : n / 10 < n := Nat.div_lt_self (Nat.pos_of_ne_zero hz) (by norm_num)
        omega
      rw [ih (n / 10) hdiv]
      omega

theorem fromDigitsLE_natDigitsLE (n : ℕ) :
    fromDigitsLE (natDigitsLE n) = n :=
  fromDigitsLE_natDigitsLEAux n n (le_refl n)

theorem natDigitsLE_lt10 (n : ℕ) : ∀ d ∈ natDigitsLE n, d < 10 :=
  fun d hd => natDigitsLEAux_lt10 n n d hd

theorem natDigitsLE_ne_nil (n : ℕ) (hn : n ≠ 0) : natDigitsLE n ≠ [] := by
  intro hnil
  have := fromDigitsLE_natDigitsLE n
  rw [hnil] at this
  exact hn (by simpa [fromDigitsLE] using this.symm)

theorem digitsValBE_append_one (A : List Char) (x : Char) :
    digitsValBE (A ++ [x]) = 10 * digitsValBE A + charDigit x := by
  simp [digitsValBE, List.foldl_append]

theorem digitsValBE_reverse_map (L : List ℕ) (hL : ∀ d ∈ L, d < 10) :
    digitsValBE ((L.map digitChar).reverse) = fromDigitsLE L := by
  induction L with
  | nil => rfl
  | cons d ds ih =>
    simp only [List.map_cons, List.reverse_cons]
    rw [digitsValBE_append_one]
    rw [ih (fun x hx => hL x (List.mem_cons_of_mem d hx))]
    rw [charDigit_digitChar d (hL d (List.mem_cons_self d ds))]
    simp [fromDigitsLE]
    ring

theorem takeWhile_append_of_all {p : Char → Bool} (A B : List Char)
    (hA : ∀ c ∈ A, p c = true) (hB : ∀ b, B.head? = some b → p b = false) :
    (A ++ B).takeWhile p = A ∧ (A ++ B).dropWhile p = B := by
  induction A with
  | nil =>
    cases B with
    | nil => exact ⟨rfl, rfl⟩
    | cons b bs =>
      have hb := hB b rfl
      constructor
      · simp [List.takeWhile_cons, hb]
      · simp [List.dropWhile_cons, hb]
  | cons a as ih =>
    have ha : p a = true := hA a (List.mem_cons_self a as)
    have ihr := ih (fun c hc => hA c (List.mem_cons_of_mem a hc))
    constructor
    · simp [List.takeWhile_cons, ha, ihr.1]
    · simp [List.dropWhile_cons, ha, ihr.2]

theorem removeRS_of_no_R : ∀ (l : List Char), (∀ c ∈ l, c ≠ 'R') → removeRS l = l
  | [], _ => rfl
  | [_], _ => rfl
  | c :: d :: t, h => by
    have hc : c ≠ 'R' := h c (by simp)
    have hbeq : (c == 'R') = false := by
      cases hb : c == 'R' with
      | false => rfl
      | true => exact absurd (by simpa using hb) hc
    have ht : removeRS (d :: t) = d :: t :=
      removeRS_of_no_R (d :: t) (fun x hx => h x (List.mem_cons_of_mem c hx))
    simp [removeRS, hbeq, ht]

theorem dropWhile_eq_self_of_head {l : List Char}
    (h : ∀ c, l.head? = some c → isWS c = false) : l.dropWhile isWS = l := by
  cases l with
  | nil => rfl
  | cons c t =>
    have := h c rfl
    simp [List.dropWhile_cons, this]

theorem pyStripData_eq_self (l : List Char)
    (h1 : ∀ c, l.head? = some c → isWS c = false)
    (h2 : ∀ c, l.getLast? = some c → isWS c = false) : pyStripData l = l := by
  unfold pyStripData
  rw [dropWhile_eq_self_of_head h1]
  rw [dropWhile_eq_self_of_head (fun c hc => h2 c (by rwa [← List.head?_reverse]))]
  exact List.reverse_reverse l

/-- The net effect of the three-step separator swap on strings without
the placeholder character. -/
def swapCh (c : Char) : Char :=
  if c == ',' then '.' else if c == '.' then ',' else c

/-- Ungrouped big-endian digit string of a natural number. -/
def intDigitsBE (n : ℕ) : List Char :=
  if n == 0 then ['0'] else ((natDigitsLE n).map digitChar).reverse

theorem swapSeps_eq_map (l : List Char) (h : ∀ c ∈ l, c ≠ 'X') :
    swapSeps l = l.map swapCh := by
  unfold swapSeps replCh
  rw [List.map_map, List.map_map]
  apply List.map_congr_left
  intro c hc
  have hcX : c ≠ 'X' := h c hc
  by_cases h1 : c = ','
  · subst h1; decide
  · by_cases h2 : c = '.'
    · subst h2; decide
    · simp [swapCh, Function.comp, h1, h2, hcX]

theorem group3_mem : ∀ (l : List Char) (k : ℕ) (c : Char),
    c ∈ group3 l k → c ∈ l ∨ c = ','
  | [], _, c, h => by simp [group3] at h
  | d :: ds, 0, c, h => by
    simp only [group3, List.mem_cons] at h
    rcases h with h | h | h
    · exact Or.inr h
    · exact Or.inl (by simp [h])
    · rcases group3_mem ds 2 c h with h2 | h2
      · exact Or.inl (List.mem_cons_of_mem d h2)
      · exact Or.inr h2
  | d :: ds, k + 1, c, h => by
    simp only [group3, List.mem_cons] at h
    rcases h with h | h
    · exact Or.inl (by simp [h])
    · rcases group3_mem ds k c h with h2 | h2
      · exact Or.inl (List.mem_cons_of_mem d h2)
      · exact Or.inr h2

theorem filter_dot_swap_group3 : ∀ (l : List Char) (k : ℕ),
    (∀ c ∈ l, c.isDigit = true) →
    ((group3 l k).map swapCh).filter (fun c => c != '.') = l
  | [], _, _ => rfl
  | d :: ds, 0, h => by
    have hd := h d (List.mem_cons_self d ds)
    have hswap : swapCh d = d := by
      simp [swapCh, isDigit_beq_false d ',' hd (by decide),
        isDigit_beq_false d '.' hd (by decide)]
    have hne : (d != '.') = true := by
      simp [bne, isDigit_beq_false d '.' hd (by decide)]
    have hcomma : swapCh ',' = '.' := by decide
    have ih := filter_dot_swap_group3 ds 2
      (fun c hc => h c (List.mem_cons_of_mem d hc))
    simp [group3, hcomma, hswap, hne, ih]
  | d :: ds, k + 1, h => by
    have hd := h d (List.mem_cons_self d ds)
    have hswap : swapCh d = d := by
      simp [swapCh, isDigit_beq_false d ',' hd (by decide),
        isDigit_beq_false d '.' hd (by decide)]
    have hne : (d != '.') = true := by
      simp [bne, isDigit_beq_false d '.' hd (by decide)]
    have ih := filter_dot_swap_group3 ds k
      (fun c hc => h c (List.mem_cons_of_mem d hc))
    simp [group3, hswap, hne, ih]

theorem natDigitsLE_chars_digit (n : ℕ) :
    ∀ c ∈ (natDigitsLE n).map digitChar, c.isDigit = true := by
  intro c hc
  rw [List.mem_map] at hc
  obtain ⟨d, hd, hEq⟩ := hc
  subst hEq
  exact digitChar_isDigit d (natDigitsLE_lt10 n d hd)

theorem intGrouped_chars (n : ℕ) :
    ∀ c ∈ intGrouped n, c.isDigit = true ∨ c = ',' := by
  intro c hc
  unfold intGrouped at hc
  by_cases hn : n = 0
  · subst hn
    simp at hc
    subst hc
    exact Or.inl (by decide)
  · have hbeq : (n == 0) = false := by simpa using hn
    rw [hbeq] at hc
    simp only [Bool.false_eq_true, if_false, List.mem_reverse] at hc
    rcases group3_mem _ _ _ hc with h2 | h2
    · exact Or.inl (natDigitsLE_chars_digit n c h2)
    · exact Or.inr h2

theorem filter_dot_swap_intGrouped (n : ℕ) :
    ((intGrouped n).map swapCh).filter (fun c => c != '.') = intDigitsBE n := by
  unfold intGrouped intDigitsBE
  by_cases hn : n = 0
  · subst hn; decide
  · have hbeq : (n == 0) = false := by simpa using hn
    rw [hbeq]
    simp only [Bool.false_eq_true, if_false]
    rw [List.map_reverse, List.filter_reverse]
    rw [filter_dot_swap_group3 _ 3 (natDigitsLE_chars_digit n)]

theorem digitsValBE_intDigitsBE (n : ℕ) : digitsValBE (intDigitsBE n) = n := by
  unfold intDigitsBE
  by_cases hn : n = 0
  · subst hn; decide
  · have hbeq : (n == 0) = false := by simpa using hn
    rw [hbeq]
    simp only [Bool.false_eq_true, if_false]
    rw [digitsValBE_reverse_map _ (natDigitsLE_lt10 n)]
    exact fromDigitsLE_natDigitsLE n

theorem intDigitsBE_ne_nil (n : ℕ) : intDigitsBE n ≠ [] := by
  unfold intDigitsBE
  by_cases hn : n = 0
  · subst hn; decide
  · have hbeq : (n == 0) = false := by simpa using hn
    rw [hbeq]
    simp only [Bool.false_eq_true, if_false, ne_eq, List.reverse_eq_nil_iff,
      List.map_eq_nil_iff]
    exact natDigitsLE_ne_nil n hn

theorem intDigitsBE_chars (n : ℕ) : ∀ c ∈ intDigitsBE n, c.isDigit = true := by
  intro c hc
  unfold intDigitsBE at hc
  by_cases hn : n = 0
  · subst hn
    simp at hc
    subst hc
    decide
  · have hbeq : (n == 0) = false := by simpa using hn
    rw [hbeq] at hc
    simp only [Bool.false_eq_true, if_false, List.mem_reverse] at hc
    exact natDigitsLE_chars_digit n c hc

theorem twoFrac_chars (r : ℕ) (hr : r < 100) :
    ∀ c ∈ twoFrac r, c.isDigit = true := by
  intro c hc
  unfold twoFrac at hc
  have h1 : r / 10 < 10 := by omega
  have h2 : r % 10 < 10 := by omega
  simp only [List.mem_cons, List.not_mem_nil, or_false] at hc
  rcases hc with h | h <;> subst h
  · exact digitChar_isDigit _ h1
  · exact digitChar_isDigit _ h2

theorem digitsValBE_twoFrac (r : ℕ) (hr : r < 100) :
    digitsValBE (twoFrac r) = r := by
  unfold twoFrac digitsValBE
  simp only [List.foldl_cons, List.foldl_nil]
  rw [charDigit_digitChar _ (by omega : r / 10 < 10),
    charDigit_digitChar _ (by omega : r % 10 < 10)]
  omega

theorem map_swapCh_of_digits (l : List Char) (h : ∀ c ∈ l, c.isDigit = true) :
    l.map swapCh = l := by
  have : ∀ c ∈ l, swapCh c = c := by
    intro c hc
    have hd := h c hc
    simp [swapCh, isDigit_beq_false c ',' hd (by decide),
      isDigit_beq_false c '.' hd (by decide)]
  calc l.map swapCh = l.map id := List.map_congr_left this
    _ = l := List.map_id l

theorem pyFloatUnsigned_intFrac (q r : ℕ) (hr : r < 100) :
    pyFloatUnsigned (intDigitsBE q ++ '.' :: twoFrac r) =
      some ((q : ℚ) + (r : ℚ) / 100) := by
  have hsplit := @takeWhile_append_of_all (fun c => c != '.')
    (intDigitsBE q) ('.' :: twoFrac r)
    (fun c hc => by simp [bne, isDigit_beq_false c '.' (intDigitsBE_chars q c hc) (by decide)])
    (fun b hb => by simp at hb; subst hb; decide)
  unfold pyFloatUnsigned
  rw [hsplit.1, hsplit.2]
  have hne : (intDigitsBE q).isEmpty = false := by
    cases hq : intDigitsBE q with
    | nil => exact absurd hq (intDigitsBE_ne_nil q)
    | cons a t => rfl
  have hip : (intDigitsBE q).all Char.isDigit = true :=
    List.all_eq_true.mpr (fun c hc => intDigitsBE_chars q c hc)
  have hfr : (twoFrac r).all Char.isDigit = true :=
    List.all_eq_true.mpr (fun c hc => twoFrac_chars r hr c hc)
  simp only [hne, hip, hfr, Bool.not_false, Bool.true_or, Bool.and_self,
    Bool.true_and, Bool.and_true, if_true]
  rw [digitsValBE_intDigitsBE, digitsValBE_twoFrac r hr]
  have hlen : (twoFrac r).length = 2 := rfl
  rw [hlen]
  norm_num

theorem twoFrac_eq (r : ℕ) : twoFrac r = [digitChar (r / 10), digitChar (r % 10)] := rfl

theorem pyFloat_signed (q r : ℕ) (hr : r < 100) :
    pyFloat (intDigitsBE q ++ '.' :: twoFrac r) = some ((q : ℚ) + (r : ℚ) / 100) ∧
    pyFloat ('-' :: (intDigitsBE q ++ '.' :: twoFrac r)) =
      some (-((q : ℚ) + (r : ℚ) / 100)) := by
  obtain ⟨d0, ds, hcons⟩ := List.exists_cons_of_ne_nil (intDigitsBE_ne_nil q)
  have hd0 : d0.isDigit = true :=
    intDigitsBE_chars q d0 (by rw [hcons]; exact List.mem_cons_self d0 ds)
  have hu2 : intDigitsBE q ++ '.' :: twoFrac r =
      (intDigitsBE q ++ ['.', digitChar (r / 10)]) ++ [digitChar (r % 10)] := by
    rw [twoFrac_eq, List.append_assoc]
    rfl
  have hlastu : ∀ ch, (intDigitsBE q ++ '.' :: twoFrac r).getLast? = some ch →
      isWS ch = false := by
    intro ch hch
    rw [hu2, List.getLast?_concat] at hch
    have : ch = digitChar (r % 10) := by
      injection hch with h
      exact h.symm
    subst this
    exact isDigit_not_isWS _ (digitChar_isDigit _ (by omega))
  have hheadu : ∀ ch, (intDigitsBE q ++ '.' :: twoFrac r).head? = some ch →
      isWS ch = false := by
    intro ch hch
    rw [hcons] at hch
    simp only [List.cons_append, List.head?_cons] at hch
    injection hch with h
    subst h
    exact isDigit_not_isWS _ hd0
  have hstripu : pyStripData (intDigitsBE q ++ '.' :: twoFrac r) =
      intDigitsBE q ++ '.' :: twoFrac r :=
    pyStripData_eq_self _ hheadu hlastu
  have hd0m : (d0 == '-') = false := isDigit_beq_false d0 '-' hd0 (by decide)
  have hd0p : (d0 == '+') = false := isDigit_beq_false d0 '+' hd0 (by decide)
  constructor
  · unfold pyFloat
    rw [hstripu, hcons]
    simp only [List.cons_append, hd0m, hd0p, Bool.false_eq_true, if_false]
    rw [← List.cons_append, ← hcons]
    exact pyFloatUnsigned_intFrac q r hr
  · have hstripm : pyStripData ('-' :: (intDigitsBE q ++ '.' :: twoFrac r)) =
        '-' :: (intDigitsBE q ++ '.' :: twoFrac r) := by
      apply pyStripData_eq_self
      · intro ch hch
        simp only [List.head?_cons] at hch
        injection hch with h
        subst h
        decide
      · intro ch hch
        rw [hu2, ← List.cons_append, List.getLast?_concat] at hch
        have : ch = digitChar (r % 10) := by
          injection hch with h
          exact h.symm
        subst this
        exact isDigit_not_isWS _ (digitChar_isDigit _ (by omega))
    unfold pyFloat
    rw [hstripm]
    simp only [if_true, show (('-' : Char) == '-') = true from by decide]
    rw [pyFloatUnsigned_intFrac q r hr]
    rfl

theorem conv_pipeline (c : ℤ) :
    Extrato.conv_moeda_br (String.mk ('R' :: '$' :: ' ' ::
        swapSeps (if c < 0 then
          '-' :: (intGrouped (c.natAbs / 100) ++ '.' :: twoFrac (c.natAbs % 100))
        else intGrouped (c.natAbs / 100) ++ '.' :: twoFrac (c.natAbs % 100)))) =
      some ((c : ℚ) / 100) := by
  set a : ℕ := c.natAbs with ha
  set q : ℕ := a / 100 with hq
  set r : ℕ := a % 100 with hrdef
  have hr : r < 100 := Nat.mod_lt a (by norm_num)
  set base : List Char := intGrouped q ++ '.' :: twoFrac r with hbase
  have hbaseChars : ∀ ch ∈ base, ch.isDigit = true ∨ ch = ',' ∨ ch = '.' := by
    intro ch hch
    rw [hbase, List.mem_append] at hch
    rcases hch with h | h
    · rcases intGrouped_chars q ch h with h2 | h2
      · exact Or.inl h2
      · exact Or.inr (Or.inl h2)
    · simp only [List.mem_cons] at h
      rcases h with h | h
      · exact Or.inr (Or.inr h)
      · exact Or.inl (twoFrac_chars r hr ch h)
  set fcBody : List Char := if c < 0 then '-' :: base else base with hfc
  have hfcChars : ∀ ch ∈ fcBody, ch.isDigit = true ∨ ch = ',' ∨ ch = '.' ∨ ch = '-' := by
    intro ch hch
    rw [hfc] at hch
    by_cases hneg : c < 0
    · rw [if_pos hneg] at hch
      simp only [List.mem_cons] at hch
      rcases hch with h | h
      · exact Or.inr (Or.inr (Or.inr h))
      · rcases hbaseChars ch h with h2 | h2 | h2
        · exact Or.inl h2
        · exact Or.inr (Or.inl h2)
        · exact Or.inr (Or.inr (Or.inl h2))
    · rw [if_neg hneg] at hch
      rcases hbaseChars ch hch with h2 | h2 | h2
      · exact Or.inl h2
      · exact Or.inr (Or.inl h2)
      · exact Or.inr (Or.inr (Or.inl h2))
  have hX : ∀ ch ∈ fcBody, ch ≠ 'X' := by
    intro ch hch hEq
    rcases hfcChars ch hch with h | h | h | h
    · rw [hEq] at h; exact absurd h (by decide)
    all_goals (rw [hEq] at h; exact absurd h (by decide))
  have hswap : swapSeps fcBody = fcBody.map swapCh := swapSeps_eq_map fcBody hX
  have hmapChars : ∀ ch ∈ fcBody.map swapCh,
      ch.isDigit = true ∨ ch = ',' ∨ ch = '.' ∨ ch = '-' := by
    intro ch hch
    rw [List.mem_map] at hch
    obtain ⟨c0, hc0, hEq⟩ := hch
    subst hEq
    rcases hfcChars c0 hc0 with h | h | h | h
    · have : swapCh c0 = c0 := by
        simp [swapCh, isDigit_beq_false c0 ',' h (by decide),
          isDigit_beq_false c0 '.' h (by decide)]
      rw [this]; exact Or.inl h
    · subst h; exact Or.inr (Or.inr (Or.inl (by decide)))
    · subst h; exact Or.inr (Or.inl (by decide))
    · subst h; exact Or.inr (Or.inr (Or.inr (by decide)))
  have hnoR : ∀ ch ∈ fcBody.map swapCh, ch ≠ 'R' := by
    intro ch hch hEq
    rcases hmapChars ch hch with h | h | h | h <;>
      (rw [hEq] at h; exact absurd h (by decide))
  have hmapBase : base.map swapCh = (intGrouped q).map swapCh ++ ',' :: twoFrac r := by
    rw [hbase, List.map_append, List.map_cons]
    rw [map_swapCh_of_digits (twoFrac r) (twoFrac_chars r hr)]
    rfl
  have hfcMap : fcBody.map swapCh =
      (if c < 0 then '-' :: (base.map swapCh) else base.map swapCh) := by
    rw [hfc]
    by_cases hneg : c < 0 <;>
      simp [hneg, show swapCh '-' = '-' from by decide]
  have haux : ∀ (A : List Char) (x y z : Char),
      A ++ x :: [y, z] = (A ++ [x, y]) ++ [z] := by
    intro A x y z
    simp
  have hlastfull : ∀ ch,
      ('R' :: '$' :: ' ' :: fcBody.map swapCh).getLast? = some ch →
        isWS ch = false := by
    intro ch hch
    have hdecomp : 'R' :: '$' :: ' ' :: fcBody.map swapCh =
        ('R' :: '$' :: ' ' ::
          (if c < 0 then
            '-' :: ((intGrouped q).map swapCh ++ [',', digitChar (r / 10)])
          else (intGrouped q).map swapCh ++ [',', digitChar (r / 10)])) ++
          [digitChar (r % 10)] := by
      rw [hfcMap, hmapBase, twoFrac_eq]
      by_cases hneg : c < 0
      · rw [if_pos hneg, if_pos hneg]
        simp [List.cons_append, List.append_assoc]
      · rw [if_neg hneg, if_neg hneg]
        simp [List.cons_append, List.append_assoc]
    rw [hdecomp, List.getLast?_concat] at hch
    have : ch = digitChar (r % 10) := by
      injection hch with h
      exact h.symm
    subst this
    exact isDigit_not_isWS _ (digitChar_isDigit _ (by omega))
  have hstripfull :
      pyStripData ('R' :: '$' :: ' ' :: fcBody.map swapCh) =
        'R' :: '$' :: ' ' :: fcBody.map swapCh := by
    apply pyStripData_eq_self
    · intro ch hch
      simp only [List.head?_cons] at hch
      injection hch with h
      subst h
      decide
    · exact hlastfull
  have hguard :
      (('R' :: '$' :: ' ' :: fcBody.map swapCh) == ([] : List Char) ||
       ('R' :: '$' :: ' ' :: fcBody.map swapCh) == ['-']) = false := rfl
  have hrm : removeRS ('R' :: '$' :: ' ' :: fcBody.map swapCh) =
      ' ' :: fcBody.map swapCh := by
    have h1 : removeRS ('R' :: '$' :: ' ' :: fcBody.map swapCh) =
        removeRS (' ' :: fcBody.map swapCh) := by
      simp [removeRS]
    rw [h1]
    apply removeRS_of_no_R
    intro x hx
    simp only [List.mem_cons] at hx
    rcases hx with h | h
    · subst h; decide
    · exact hnoR x h
  have hsp : (' ' :: fcBody.map swapCh).filter (fun ch => ch != ' ') =
      fcBody.map swapCh := by
    rw [List.filter_cons]
    simp only [show ((' ' : Char) != ' ') = false from by decide,
      Bool.false_eq_true, if_false]
    apply List.filter_eq_self.mpr
    intro ch hch
    rcases hmapChars ch hch with h | h | h | h
    · simp [bne, isDigit_beq_false ch ' ' h (by decide)]
    all_goals (subst h; decide)
  have hdotCore : (base.map swapCh).filter (fun ch => ch != '.') =
      intDigitsBE q ++ ',' :: twoFrac r := by
    rw [hmapBase, List.filter_append, filter_dot_swap_intGrouped, List.filter_cons]
    simp only [show ((',' : Char) != '.') = true from by decide, if_true]
    congr 1
    congr 1
    apply List.filter_eq_self.mpr
    intro ch hch
    simp [bne, isDigit_beq_false ch '.' (twoFrac_chars r hr ch hch) (by decide)]
  have hdot : (fcBody.map swapCh).filter (fun ch => ch != '.') =
      (if c < 0 then '-' :: (intDigitsBE q ++ ',' :: twoFrac r)
       else intDigitsBE q ++ ',' :: twoFrac r) := by
    rw [hfcMap]
    by_cases hneg : c < 0
    · rw [if_pos hneg, if_pos hneg, List.filter_cons]
      simp only [show (('-' : Char) != '.') = true from by decide, if_true]
      rw [hdotCore]
    · rw [if_neg hneg, if_neg hneg, hdotCore]
  have hmapCommaDigits : ∀ (l : List Char), (∀ ch ∈ l, ch.isDigit = true) →
      l.map (fun ch => if ch == ',' then '.' else ch) = l := by
    intro l hl
    have hpt : ∀ ch ∈ l, (if ch == ',' then '.' else ch) = id ch := by
      intro ch hch
      simp [isDigit_beq_false ch ',' (hl ch hch) (by decide)]
    rw [List.map_congr_left hpt, List.map_id]
  have hcmCore : (intDigitsBE q ++ ',' :: twoFrac r).map
      (fun ch => if ch == ',' then '.' else ch) =
      intDigitsBE q ++ '.' :: twoFrac r := by
    rw [List.map_append, List.map_cons]
    rw [hmapCommaDigits _ (intDigitsBE_chars q),
      hmapCommaDigits _ (twoFrac_chars r hr)]
    rfl
  have hcm : ((if c < 0 then '-' :: (intDigitsBE q ++ ',' :: twoFrac r)
       else intDigitsBE q ++ ',' :: twoFrac r)).map
        (fun ch => if ch == ',' then '.' else ch) =
      (if c < 0 then '-' :: (intDigitsBE q ++ '.' :: twoFrac r)
       else intDigitsBE q ++ '.' :: twoFrac r) := by
    by_cases hneg : c < 0
    · rw [if_pos hneg, if_pos hneg, List.map_cons, hcmCore]
      rfl
    · rw [if_neg hneg, if_neg hneg, hcmCore]
  have harith : (q : ℚ) + (r : ℚ) / 100 = (a : ℚ) / 100 := by
    have hqa : q * 100 + r = a := by omega
    field_simp
    exact_mod_cast hqa
  rw [hswap]
  simp only [Extrato.conv_moeda_br]
  rw [hstripfull]
  simp only [hguard, Bool.false_eq_true, if_false]
  rw [hrm, hsp, hdot, hcm]
  by_cases hneg : c < 0
  · rw [if_pos hneg]
    rw [(pyFloat_signed q r hr).2]
    have hca : ((a : ℚ)) = -(c : ℚ) := by
      have h2 : (a : ℤ) = -c := Int.ofNat_natAbs_of_nonpos (le_of_lt hneg)
      exact_mod_cast h2
    rw [harith, hca]
    congr 1
    ring
  · rw [if_neg hneg]
    rw [(pyFloat_signed q r hr).1]
    have hca : ((a : ℚ)) = (c : ℚ) := by
      have h2 : ((a : ℤ)) = c := Int.natAbs_of_nonneg (not_lt.mp hneg)
      exact_mod_cast h2
    rw [harith, hca]

theorem formatComma2_eq (v : ℚ) (hv : (v * 100).den = 1) :
    formatComma2 v =
      (if (v * 100).num < 0 then
        '-' :: (intGrouped ((v * 100).num.natAbs / 100) ++
          '.' :: twoFrac ((v * 100).num.natAbs % 100))
      else intGrouped ((v * 100).num.natAbs / 100) ++
        '.' :: twoFrac ((v * 100).num.natAbs % 100)) := by
  have hnum : (((v * 100).num : ℚ)) = v * 100 := (Rat.den_eq_one_iff _).mp hv
  have hhalf : (⌊(1 / 2 : ℚ)⌋ : ℤ) = 0 := by
    rw [Int.floor_eq_zero_iff]
    constructor <;> norm_num
  have hfloor : ⌊v * 100 + 1 / 2⌋ = (v * 100).num := by
    calc ⌊v * 100 + 1 / 2⌋ = ⌊((v * 100).num : ℚ) + 1 / 2⌋ := by rw [hnum]
      _ = ⌊(1 / 2 : ℚ) + ((v * 100).num : ℚ)⌋ := by rw [add_comm]
      _ = ⌊(1 / 2 : ℚ)⌋ + (v * 100).num := Int.floor_add_int _ _
      _ = (v * 100).num := by rw [hhalf]; ring
  simp only [formatComma2, hfloor]

theorem mapSwap_intGrouped_chars (n : ℕ) :
    ∀ ch ∈ (intGrouped n).map swapCh, ch.isDigit = true ∨ ch = '.' := by
  intro ch hch
  rw [List.mem_map] at hch
  obtain ⟨c0, hc0, hEq⟩ := hch
  subst hEq
  rcases intGrouped_chars n c0 hc0 with h | h
  · have hid : swapCh c0 = c0 := by
      simp [swapCh, isDigit_beq_false c0 ',' h (by decide),
        isDigit_beq_false c0 '.' h (by decide)]
    rw [hid]
    exact Or.inl h
  · subst h
    exact Or.inr (by decide)

theorem swapSeps_formatBody (c : ℤ) :
    swapSeps (if c < 0 then
        '-' :: (intGrouped (c.natAbs / 100) ++ '.' :: twoFrac (c.natAbs % 100))
      else intGrouped (c.natAbs / 100) ++ '.' :: twoFrac (c.natAbs % 100)) =
    (if c < 0 then '-' :: (intGrouped (c.natAbs / 100)).map swapCh
      else (intGrouped (c.natAbs / 100)).map swapCh) ++
      [',', digitChar (c.natAbs % 100 / 10), digitChar (c.natAbs % 100 % 10)] := by
  set a : ℕ := c.natAbs with ha
  set q : ℕ := a / 100 with hq
  set r : ℕ := a % 100 with hrdef
  have hr : r < 100 := Nat.mod_lt a (by norm_num)
  have hbaseChars : ∀ ch ∈ intGrouped q ++ '.' :: twoFrac r,
      ch.isDigit = true ∨ ch = ',' ∨ ch = '.' := by
    intro ch hch
    rw [List.mem_append] at hch
    rcases hch with h | h
    · rcases intGrouped_chars q ch h with h2 | h2
      · exact Or.inl h2
      · exact Or.inr (Or.inl h2)
    · simp only [List.mem_cons] at h
      rcases h with h | h
      · exact Or.inr (Or.inr h)
      · exact Or.inl (twoFrac_chars r hr ch h)
  have hX : ∀ ch ∈ (if c < 0 then
      '-' :: (intGrouped q ++ '.' :: twoFrac r)
      else intGrouped q ++ '.' :: twoFrac r), ch ≠ 'X' := by
    intro ch hch hEq
    by_cases hneg : c < 0
    · rw [if_pos hneg] at hch
      simp only [List.mem_cons] at hch
      rcases hch with h | h
      · rw [h] at hEq; exact absurd hEq (by decide)
      · rcases hbaseChars ch h with h2 | h2 | h2 <;>
          (rw [hEq] at h2; exact absurd h2 (by decide))
    · rw [if_neg hneg] at hch
      rcases hbaseChars ch hch with h2 | h2 | h2 <;>
        (rw [hEq] at h2; exact absurd h2 (by decide))
  rw [swapSeps_eq_map _ hX]
  have hmapBase : (intGrouped q ++ '.' :: twoFrac r).map swapCh =
      (intGrouped q).map swapCh ++ [',', digitChar (r / 10), digitChar (r % 10)] := by
    rw [List.map_append, List.map_cons]
    rw [map_swapCh_of_digits (twoFrac r) (twoFrac_chars r hr), twoFrac_eq]
    rfl
  by_cases hneg : c < 0
  · rw [if_pos hneg, if_pos hneg, List.map_cons, hmapBase]
    rw [show swapCh '-' = '-' from by decide]
    rfl
  · rw [if_neg hneg, if_neg hneg, hmapBase]

/-- C10: Brazilian-currency formatting and parsing round-trip — for every
value v representable in whole cents, `conv_moeda_br (formatar_moeda v)`
recovers v exactly; moreover the formatted string starts with "R$ " and
ends with a comma followed by two decimal digits, the part before the
decimal comma containing only digits, thousands dots and a sign. -/
theorem moeda_roundtrip (v : ℚ) (hv : (v * 100).den = 1) :
    Extrato.conv_moeda_br (Extrato.formatar_moeda (some v)) = some v ∧
    ∃ pre d1 d2, Extrato.formatar_moeda (some v) =
        String.mk ('R' :: '$' :: ' ' :: (pre ++ [',', d1, d2])) ∧
      d1.isDigit = true ∧ d2.isDigit = true ∧ ',' ∉ pre ∧
      ∀ ch ∈ pre, ch.isDigit = true ∨ ch = '.' ∨ ch = '-' := by
  set c : ℤ := (v * 100).num with hc
  have hnum : ((c : ℚ)) = v * 100 := (Rat.den_eq_one_iff _).mp hv
  have hfmt : Extrato.formatar_moeda (some v) =
      String.mk ('R' :: '$' :: ' ' :: swapSeps (if c < 0 then
        '-' :: (intGrouped (c.natAbs / 100) ++ '.' :: twoFrac (c.natAbs % 100))
      else intGrouped (c.natAbs / 100) ++ '.' :: twoFrac (c.natAbs % 100))) := by
    simp only [Extrato.formatar_moeda]
    rw [formatComma2_eq v hv]
  constructor
  · rw [hfmt, conv_pipeline c]
    congr 1
    rw [hnum]
    ring
  · refine ⟨(if c < 0 then '-' :: (intGrouped (c.natAbs / 100)).map swapCh
      else (intGrouped (c.natAbs / 100)).map swapCh),
      digitChar (c.natAbs % 100 / 10), digitChar (c.natAbs % 100 % 10), ?_, ?_, ?_, ?_, ?_⟩
    · rw [hfmt, swapSeps_formatBody c]
    · exact digitChar_isDigit _ (by omega)
    · exact digitChar_isDigit _ (by omega)
    · intro hmem
      by_cases hneg : c < 0
      · rw [if_pos hneg] at hmem
        simp only [List.mem_cons] at hmem
        rcases hmem with h | h
        · exact absurd h.symm (by decide)
        · rcases mapSwap_intGrouped_chars _ ',' h with h2 | h2
          · exact absurd h2 (by decide)
          · exact absurd h2 (by decide)
      · rw [if_neg hneg] at hmem
        rcases mapSwap_intGrouped_chars _ ',' hmem with h2 | h2
        · exact absurd h2 (by decide)
        · exact absurd h2 (by decide)
    · intro ch hch
      by_cases hneg : c < 0
      · rw [if_pos hneg] at hch
        simp only [List.mem_cons] at hch
        rcases hch with h | h
        · exact Or.inr (Or.inr h)
        · rcases mapSwap_intGrouped_chars _ ch h with h2 | h2
          · exact Or.inl h2
          · exact Or.inr (Or.inl h2)
      · rw [if_neg hneg] at hch
        rcases mapSwap_intGrouped_chars _ ch hch with h2 | h2
        · exact Or.inl h2
        · exact Or.inr (Or.inl h2)

/-- C10 (witness): the round trip at v = 1234.56 (cents 123456). -/
theorem moeda_roundtrip_witness :
    Extrato.conv_moeda_br (Extrato.formatar_moeda (some (30864 / 25))) =
        some (30864 / 25) ∧
    ∃ pre d1 d2, Extrato.formatar_moeda (some (30864 / 25)) =
        String.mk ('R' :: '$' :: ' ' :: (pre ++ [',', d1, d2])) ∧
      d1.isDigit = true ∧ d2.isDigit = true ∧ ',' ∉ pre ∧
      ∀ ch ∈ pre, ch.isDigit = true ∨ ch = '.' ∨ ch = '-' :=
  moeda_roundtrip (30864 / 25) (by norm_num)

theorem isPrefixL_append_self : ∀ (p t : List Char), isPrefixL p (p ++ t) = true
  | [], _ => rfl
  | a :: as, t => by
    simp only [List.cons_append, isPrefixL, beq_self_eq_true, Bool.true_and]
    exact isPrefixL_append_self as t

theorem isPrefixL_exists (p l : List Char) (h : isPrefixL p l = true) :
    ∃ t, l = p ++ t := by
  induction p generalizing l with
  | nil => exact ⟨l, rfl⟩
  | cons a as ih =>
    cases l with
    | nil => simp [isPrefixL] at h
    | cons b bs =>
      simp only [isPrefixL, Bool.and_eq_true, beq_iff_eq] at h
      obtain ⟨t, ht⟩ := ih bs h.2
      exact ⟨t, by rw [ht, List.cons_append, h.1]⟩

theorem dropWhile_append_split (p : Char → Bool) :
    ∀ (l1 l2 : List Char), (l1 ++ l2).dropWhile p =
      (if (l1.dropWhile p).isEmpty then l2.dropWhile p
       else l1.dropWhile p ++ l2)
  | [], l2 => by simp [List.dropWhile]
  | a :: l1, l2 => by
    cases hpa : p a with
    | true =>
      simp only [List.cons_append, List.dropWhile_cons, hpa, if_true]
      exact dropWhile_append_split p l1 l2
    | false =>
      simp only [List.cons_append, List.dropWhile_cons, hpa,
        Bool.false_eq_true, if_false, List.isEmpty_cons]

theorem mem_of_getLast?Own (l : List Char) (c : Char)
    (h : l.getLast? = some c) : c ∈ l := by
  rw [← List.head?_reverse] at h
  cases hrev : l.reverse with
  | nil => rw [hrev] at h; cases h
  | cons b bs =>
    rw [hrev] at h
    simp only [List.head?_cons] at h
    injection h with h2
    subst h2
    exact List.mem_reverse.mp (by rw [hrev]; exact List.mem_cons_self _ _)

theorem isPrefixL_pyStripData (p l : List Char) (hp : ∀ c ∈ p, isWS c = false)
    (h : isPrefixL p l = true) : isPrefixL p (pyStripData l) = true := by
  cases p with
  | nil => cases pyStripData l <;> rfl
  | cons a as =>
    obtain ⟨t, ht⟩ := isPrefixL_exists _ _ h
    subst ht
    have hstep1 : List.dropWhile isWS ((a :: as) ++ t) = (a :: as) ++ t := by
      rw [List.cons_append, List.dropWhile_cons,
        hp a (List.mem_cons_self a as)]
      simp
    unfold pyStripData
    rw [hstep1, List.reverse_append, dropWhile_append_split]
    by_cases hemp : ((t.reverse).dropWhile isWS).isEmpty = true
    · rw [if_pos hemp]
      have hrev : List.dropWhile isWS (a :: as).reverse = (a :: as).reverse := by
        apply dropWhile_eq_self_of_head
        intro ch hch
        rw [List.head?_reverse] at hch
        exact hp ch (mem_of_getLast?Own _ ch hch)
      rw [hrev, List.reverse_reverse]
      have h2 := isPrefixL_append_self (a :: as) []
      simpa using h2
    · rw [if_neg hemp, List.reverse_append, List.reverse_reverse]
      exact isPrefixL_append_self _ _

namespace Atas

/-- A column-oriented data frame: label and cell list per column. -/
abbrev ColFrame := List (String × List Cell)

/-- The rename dictionary of `carregar_atas_andamento` (atas.py lines
39-45) as a function on labels. -/
def renameAtas (n : String) : String :=
  if n == "ATAS EM ANDAMENTO" then "Atas em Andamento"
  else if n == "Situação " then "Situação"
  else if n == "Previsão para estar disponível" then "Previsão para estar disponível"
  else n

/-- The ordered display columns of the `Atas em Andamento` table. -/
def targetColsAtas : List String :=
  ["Atas em Andamento", "Situação", "Previsão para estar disponível"]

/-- Column labels of a frame. -/
def colNames (df : ColFrame) : List String := df.map Prod.fst

/-- Cells of the first column with a given label. -/
def lookupCells (df : ColFrame) (n : String) : List Cell :=
  match df.find? (fun col => col.1 == n) with
  | some col => col.2
  | none => []

/-- Selection `df[[c for c in names if c in df.columns]]`: the named
columns present, in the order of the name list. -/
def selectByNames (df : ColFrame) (ns : List String) : ColFrame :=
  (ns.filter (fun n => (colNames df).contains n)).map
    (fun n => (n, lookupCells df n))

/-- The normalization of `carregar_atas_andamento` in source order: drop
the columns whose raw label starts with "Unnamed", then strip labels,
then rename. -/
def atasNormalize (df : ColFrame) : ColFrame :=
  ((df.filter (fun col => !(pyStartsWith col.1 "Unnamed"))).map
    (fun col => (pyStrip col.1, col.2))).map
    (fun col => (renameAtas col.1, col.2))

/-- Embedding of `carregar_atas_andamento` (atas.py lines 34-57). -/
def carregar_atas_andamento (df : ColFrame) : ColFrame :=
  selectByNames (atasNormalize df) targetColsAtas

/-- The same loader as the claim words it: strip labels first, then drop
the "Unnamed" columns, then rename, then project. -/
def spec_atasNormalize (df : ColFrame) : ColFrame :=
  (((df.map (fun col => (pyStrip col.1, col.2))).filter
    (fun col => !(pyStartsWith col.1 "Unnamed"))).map
    (fun col => (renameAtas col.1, col.2)))

/-- The claim reading of the loader. -/
def spec_atas_andamento (df : ColFrame) : ColFrame :=
  selectByNames (spec_atasNormalize df) targetColsAtas

theorem pyStartsWith_pyStrip (s : String)
    (h : pyStartsWith s "Unnamed" = true) :
    pyStartsWith (pyStrip s) "Unnamed" = true := by
  unfold pyStartsWith pyStrip at *
  exact isPrefixL_pyStripData _ _ (by decide) h

theorem pyStartsWith_renameAtas (n : String) :
    pyStartsWith (renameAtas n) "Unnamed" = pyStartsWith n "Unnamed" := by
  unfold renameAtas
  by_cases h1 : n == "ATAS EM ANDAMENTO"
  · rw [if_pos h1]
    have : n = "ATAS EM ANDAMENTO" := by simpa using h1
    subst this
    decide
  · rw [if_neg h1]
    by_cases h2 : n == "Situação "
    · rw [if_pos h2]
      have : n = "Situação " := by simpa using h2
      subst this
      decide
    · rw [if_neg h2]
      by_cases h3 : n == "Previsão para estar disponível"
      · rw [if_pos h3]
        have : n = "Previsão para estar disponível" := by simpa using h3
        rw [this]
      · rw [if_neg h3]

theorem spec_eq_code_filter (df : ColFrame) :
    spec_atasNormalize df =
      (atasNormalize df).filter (fun col => !(pyStartsWith col.1 "Unnamed")) := by
  induction df with
  | nil => rfl
  | cons col df ih =>
    unfold spec_atasNormalize atasNormalize at *
    cases hsw : pyStartsWith col.1 "Unnamed" with
    | true =>
      have hsw2 : pyStartsWith (pyStrip col.1) "Unnamed" = true :=
        pyStartsWith_pyStrip col.1 hsw
      simp only [List.map_cons, List.filter_cons, hsw, hsw2, Bool.not_true,
        Bool.false_eq_true, if_false]
      exact ih
    | false =>
      cases hsw2 : pyStartsWith (pyStrip col.1) "Unnamed" with
      | true =>
        have hsw3 : pyStartsWith (renameAtas (pyStrip col.1)) "Unnamed" = true := by
          rw [pyStartsWith_renameAtas]; exact hsw2
        simp only [List.map_cons, List.filter_cons, hsw, hsw2, hsw3, Bool.not_true,
          Bool.not_false, if_true, Bool.false_eq_true, if_false]
        exact ih
      | false =>
        have hsw3 : pyStartsWith (renameAtas (pyStrip col.1)) "Unnamed" = false := by
          rw [pyStartsWith_renameAtas]; exact hsw2
        simp only [List.map_cons, List.filter_cons, hsw, hsw2, hsw3, Bool.not_true,
          Bool.not_false, if_true, Bool.false_eq_true]
        rw [ih]

end Atas

theorem find?_filter_agree {α : Type} (p q : α → Bool) (l : List α)
    (h : ∀ x, p x = true → q x = true) :
    (l.filter q).find? p = l.find? p := by
  induction l with
  | nil => rfl
  | cons a t ih =>
    cases hqa : q a with
    | true =>
      rw [List.filter_cons, hqa]
      simp only [if_true]
      cases hpa : p a <;> simp [List.find?, hpa, ih]
    | false =>
      have hpa : p a = false := by
        cases hp2 : p a with
        | false => rfl
        | true => rw [h a hp2] at hqa; cases hqa
      rw [List.filter_cons, hqa]
      simp only [Bool.false_eq_true, if_false]
      rw [ih]
      simp [List.find?, hpa]

namespace Atas

theorem contains_filter_agree (q : (String × List Cell) → Bool)
    (l : ColFrame) (n : String) (h : ∀ x, x.1 = n → q x = true) :
    (colNames (l.filter q)).contains n = (colNames l).contains n := by
  induction l with
  | nil => rfl
  | cons col t ih =>
    cases hq : q col with
    | true =>
      rw [List.filter_cons, hq]
      simp only [if_true, colNames, List.map_cons, List.contains_cons]
      rw [show (t.filter q).map Prod.fst = colNames (t.filter q) from rfl,
        show t.map Prod.fst = colNames t from rfl, ih]
    | false =>
      have hne : (n == col.1) = false := by
        cases hb : n == col.1 with
        | false => rfl
        | true =>
          have : n = col.1 := by simpa using hb
          rw [h col this.symm] at hq
          cases hq
      rw [List.filter_cons, hq]
      simp only [Bool.false_eq_true, if_false, colNames, List.map_cons,
        List.contains_cons, hne, Bool.false_or]
      exact ih

theorem target_not_unnamed (n : String) (hn : n ∈ targetColsAtas) :
    pyStartsWith n "Unnamed" = false := by
  simp only [targetColsAtas, List.mem_cons, List.not_mem_nil, or_false] at hn
  rcases hn with h | h | h <;> (subst h; decide)

theorem lookupCells_spec_code (df : ColFrame) (n : String)
    (hn : pyStartsWith n "Unnamed" = false) :
    lookupCells (spec_atasNormalize df) n = lookupCells (atasNormalize df) n := by
  rw [spec_eq_code_filter]
  unfold lookupCells
  have hag : ∀ x : String × List Cell, (x.1 == n) = true →
      (!(pyStartsWith x.1 "Unnamed")) = true := by
    intro x hx
    have hx2 : x.1 = n := by simpa using hx
    rw [hx2, hn]
    rfl
  rw [find?_filter_agree _ _ _ hag]

theorem contains_spec_code (df : ColFrame) (n : String)
    (hn : pyStartsWith n "Unnamed" = false) :
    (colNames (spec_atasNormalize df)).contains n =
      (colNames (atasNormalize df)).contains n := by
  rw [spec_eq_code_filter]
  apply contains_filter_agree
  intro x hx
  rw [hx, hn]
  rfl

theorem mem_atasNormalize_origin (df : ColFrame) (c0 : String × List Cell)
    (h : c0 ∈ atasNormalize df) : ∃ col0 ∈ df, c0.2 = col0.2 := by
  unfold atasNormalize at h
  rw [List.mem_map] at h
  obtain ⟨c1, hc1, hEq1⟩ := h
  rw [List.mem_map] at hc1
  obtain ⟨c2, hc2, hEq2⟩ := hc1
  rw [List.mem_filter] at hc2
  refine ⟨c2, hc2.1, ?_⟩
  rw [← hEq1, ← hEq2]

end Atas

/-- C8: the `Atas em Andamento` loader equals its specification reading —
strip the column labels, drop every column whose label starts with
"Unnamed", rename "ATAS EM ANDAMENTO" to "Atas em Andamento", and return
exactly the members of the ordered display list that are present, in that
order, with every returned column's cells taken unchanged from the input
frame. -/
theorem atas_andamento_normalization (df : Atas.ColFrame) :
    Atas.carregar_atas_andamento df = Atas.spec_atas_andamento df ∧
    Atas.colNames (Atas.carregar_atas_andamento df) =
      Atas.targetColsAtas.filter
        (fun n => (Atas.colNames (Atas.atasNormalize df)).contains n) ∧
    ∀ col ∈ Atas.carregar_atas_andamento df,
      col.1 ∈ Atas.targetColsAtas ∧ ∃ col0 ∈ df, col.2 = col0.2 := by
  refine ⟨?_, ?_, ?_⟩
  · unfold Atas.carregar_atas_andamento Atas.spec_atas_andamento
    unfold Atas.selectByNames
    have hfil : Atas.targetColsAtas.filter
        (fun n => (Atas.colNames (Atas.spec_atasNormalize df)).contains n) =
        Atas.targetColsAtas.filter
        (fun n => (Atas.colNames (Atas.atasNormalize df)).contains n) := by
      apply List.filter_congr
      intro n hn
      rw [Atas.contains_spec_code df n (Atas.target_not_unnamed n hn)]
    rw [hfil]
    apply List.map_congr_left
    intro n hn
    rw [List.mem_filter] at hn
    rw [Atas.lookupCells_spec_code df n (Atas.target_not_unnamed n hn.1)]
  · unfold Atas.carregar_atas_andamento Atas.selectByNames Atas.colNames
    rw [List.map_map]
    have : (Prod.fst ∘ fun n => (n, Atas.lookupCells (Atas.atasNormalize df) n)) =
        id := rfl
    rw [this, List.map_id]
  · intro col hcol
    unfold Atas.carregar_atas_andamento Atas.selectByNames at hcol
    rw [List.mem_map] at hcol
    obtain ⟨n, hn, hEq⟩ := hcol
    rw [List.mem_filter] at hn
    constructor
    · rw [← hEq]
      exact hn.1
    · have hcontains := hn.2
      have hmemName : n ∈ Atas.colNames (Atas.atasNormalize df) := by
        simpa using hcontains
      unfold Atas.colNames at hmemName
      rw [List.mem_map] at hmemName
      obtain ⟨c0, hc0, hc0n⟩ := hmemName
      have hfind : ∃ c1, (Atas.atasNormalize df).find?
          (fun c => c.1 == n) = some c1 := by
        cases hf : (Atas.atasNormalize df).find? (fun c => c.1 == n) with
        | some c1 => exact ⟨c1, rfl⟩
        | none =>
          have := List.find?_eq_none.mp hf c0 hc0
          rw [hc0n] at this
          simp at this
      obtain ⟨c1, hc1⟩ := hfind
      have hc1mem : c1 ∈ Atas.atasNormalize df := List.mem_of_find?_eq_some hc1
      obtain ⟨col0, hcol0, hcells⟩ := Atas.mem_atasNormalize_origin df c1 hc1mem
      refine ⟨col0, hcol0, ?_⟩
      rw [← hEq]
      simp only [Atas.lookupCells, hc1]
      exact hcells

namespace StatusProc

/-- A row-oriented data frame: column labels and positional rows. -/
structure Frame where
  cols : List String
  rows : List (List Cell)
deriving DecidableEq, Repr

/-- Index of the first column with a given label. -/
def findIdx (n : String) : List String → Option Nat
  | [] => none
  | c :: cs => if c == n then some 0 else (findIdx n cs).map (· + 1)

/-- Cell of a row at an optional index. -/
def getCellD (row : List Cell) : Option Nat → Cell
  | some i => row.getD i none
  | none => none

/-- Column selection `df[names]` (labels matched by first occurrence). -/
def selectCols (f : Frame) (ns : List String) : Frame :=
  ⟨ns, f.rows.map (fun row => ns.map (fun n => getCellD row (findIdx n f.cols)))⟩

/-- The effect of `df[c] = None` for a missing column. -/
def addMissing (f : Frame) (n : String) : Frame :=
  if f.cols.contains n then f
  else ⟨f.cols ++ [n], f.rows.map (fun r => r ++ [none])⟩

/-- The `for c in …: if c not in df.columns: df[c] = None` idiom. -/
def ensureCols (f : Frame) (ns : List String) : Frame := ns.foldl addMissing f

/-- `df.rename(columns=m)` with an association-list dictionary. -/
def renameCols (f : Frame) (m : List (String × String)) : Frame :=
  ⟨f.cols.map (fun c => ((m.lookup c).getD c)), f.rows⟩

/-- `pd.concat(frames, ignore_index=True)` for frames sharing one column
list. -/
def concatRows : List Frame → Frame
  | [] => ⟨[], []⟩
  | f :: fs => ⟨f.cols, f.rows ++ (fs.map Frame.rows).flatten⟩

/-- The mask of lines 109-113: keep a row iff some value is neither
missing nor the empty string. -/
def rowNonEmpty (row : List Cell) : Bool :=
  row.any (fun c => match c with | some s => s != "" | none => false)

/-- Removal of the all-empty rows. -/
def dropAllEmptyRows (f : Frame) : Frame := ⟨f.cols, f.rows.filter rowNonEmpty⟩

/-- The fixed columns of the Consulta BI sheet. -/
def col_fixas : List String :=
  ["Linha", "Finalizado", "Processo", "Requisitante", "Objeto",
   "Modalidade", "Número", "Valor inicial", "Não concluído", "Entrada na DCC"]

/-- The unsuffixed movement-column group. -/
def baseMov : List String := ["Data Mov", "E/S", "Deptº", "Ação"]

/-- The movement-column group carrying a suffix. -/
def movCols (suf : String) : List String :=
  ["Data Mov" ++ suf, "E/S" ++ suf, "Deptº" ++ suf, "Ação" ++ suf]

/-- Python slicing `col[len("Data Mov"):]`. -/
def strDropStr (s : String) (k : Nat) : String := String.mk (s.data.drop k)

/-- The rename dictionary of one suffix group back to the base labels. -/
def renameMap (suf : String) : List (String × String) :=
  [("Data Mov" ++ suf, "Data Mov"), ("E/S" ++ suf, "E/S"),
   ("Deptº" ++ suf, "Deptº"), ("Ação" ++ suf, "Ação")]

/-- The loop body of lines 82-105: skip the base column, otherwise make
sure the group's four columns exist, select the fixed columns plus the
group, rename the group to the base labels, and append the block.  The
suffix is `col[len("Data Mov"):]` and `movCols suf` is exactly the
`[col_data, col_es, col_dept, col_acao]` list of the source. -/
def unpivotStep (acc : Frame × List Frame) (col : String) : Frame × List Frame :=
  if col == "Data Mov" then acc
  else
    (ensureCols acc.1 (movCols (strDropStr col 8)),
     acc.2 ++ [renameCols
       (selectCols (ensureCols acc.1 (movCols (strDropStr col 8)))
         (col_fixas ++ movCols (strDropStr col 8)))
       (renameMap (strDropStr col 8))])

/-- Embedding of `carregar_dados_status` (statusdoprocesso.py lines
48-113): label stripping, the guarantees that the fixed and movement
columns exist, one block per `Data Mov*` column with the group renamed to
the base labels, concatenation, and removal of all-empty rows.  The
dtype coercions of lines 115-143 normalize cell representations
afterwards and are outside this reshaping embedding. -/
def carregar_dados_status_unpivot (df0 : Frame) : Frame :=
  let df1 := Frame.mk (df0.cols.map pyStrip) df0.rows
  let df2 := ensureCols df1 col_fixas
  let df3 := ensureCols df2 ["Data Mov"]
  let df4 := ensureCols df3 ["E/S", "Deptº", "Ação"]
  let dataCols := df4.cols.filter (fun c => pyStartsWith c "Data Mov")
  let grupo0 := selectCols df4 (col_fixas ++ ["Data Mov", "E/S", "Deptº", "Ação"])
  let res := dataCols.foldl unpivotStep (df4, [])
  dropAllEmptyRows (concatRows (grupo0 :: res.2))

/-- Column list of a Consulta BI frame with the given suffix groups. -/
def statusCols (sufs : List String) : List String :=
  col_fixas ++ baseMov ++ (sufs.map movCols).flatten

/-- A raw row assembled from its fixed cells and its movement groups. -/
def statusRow (e : List Cell × List (List Cell)) : List Cell :=
  e.1 ++ e.2.flatten

/-- A Consulta BI frame with the given suffix groups and entries. -/
def mkStatusFrame (sufs : List String)
    (entries : List (List Cell × List (List Cell))) : Frame :=
  ⟨statusCols sufs, entries.map statusRow⟩

/-- The claim's block list: for each group index one block of rows, each
row the fixed cells followed by that group's cells. -/
def specBlocks (sufs : List String)
    (entries : List (List Cell × List (List Cell))) : List (List Cell) :=
  ((List.range (sufs.length + 1)).map
    (fun k => entries.map (fun e => e.1 ++ e.2.getD k []))).flatten

theorem contains_of_mem (l : List String) (a : String) (h : a ∈ l) :
    l.contains a = true := by
  induction l with
  | nil => cases h
  | cons b t ih =>
    rw [List.contains_cons]
    rcases List.mem_cons.mp h with h2 | h2
    · subst h2; simp
    · rw [ih h2]; simp

theorem addMissing_of_contains (f : Frame) (n : String)
    (h : f.cols.contains n = true) : addMissing f n = f := by
  unfold addMissing
  rw [h]
  rfl

theorem ensureCols_of_mem (f : Frame) (ns : List String)
    (h : ∀ n ∈ ns, f.cols.contains n = true) : ensureCols f ns = f := by
  induction ns with
  | nil => rfl
  | cons n t ih =>
    unfold ensureCols at *
    rw [List.foldl_cons, addMissing_of_contains f n (h n (List.mem_cons_self n t))]
    exact ih (fun m hm => h m (List.mem_cons_of_mem n hm))

theorem findIdx_lt (n : String) : ∀ (cols : List String) (j : Nat),
    findIdx n cols = some j → j < cols.length := by
  intro cols
  induction cols with
  | nil => intro j h; cases h
  | cons c cs ih =>
    intro j h
    unfold findIdx at h
    by_cases hc : (c == n) = true
    · rw [if_pos hc] at h
      injection h with h2
      subst h2
      simp
    · rw [if_neg hc] at h
      cases hf : findIdx n cs with
      | none => rw [hf] at h; cases h
      | some i =>
        rw [hf] at h
        injection h with h2
        subst h2
        have := ih i hf
        simp only [List.length_cons]
        omega

theorem findIdx_append_left (n : String) : ∀ (l1 l2 : List String),
    n ∈ l1 → findIdx n (l1 ++ l2) = findIdx n l1 := by
  intro l1
  induction l1 with
  | nil => intro l2 h; cases h
  | cons c cs ih =>
    intro l2 h
    unfold findIdx
    by_cases hc : (c == n) = true
    · rw [List.cons_append]
      simp only [findIdx, hc, if_true]
    · rw [List.cons_append]
      simp only [findIdx, hc, Bool.false_eq_true, if_false]
      have hmem : n ∈ cs := by
        rcases List.mem_cons.mp h with h2 | h2
        · exact absurd (by simpa using h2.symm) hc
        · exact h2
      rw [ih l2 hmem]

theorem findIdx_append_right (n : String) : ∀ (l1 l2 : List String),
    n ∉ l1 → findIdx n (l1 ++ l2) = (findIdx n l2).map (· + l1.length) := by
  intro l1
  induction l1 with
  | nil =>
    intro l2 _
    simp only [List.nil_append, List.length_nil]
    cases findIdx n l2 <;> simp
  | cons c cs ih =>
    intro l2 h
    have hc : (c == n) = false := by
      cases hb : c == n with
      | false => rfl
      | true =>
        exact absurd (List.mem_cons_self c cs)
          (by rw [show c = n from by simpa using hb] at h ⊢; exact h)
    rw [List.cons_append]
    simp only [findIdx, hc, Bool.false_eq_true, if_false]
    rw [ih l2 (fun hm => h (List.mem_cons_of_mem c hm))]
    cases findIdx n l2 with
    | none => rfl
    | some i =>
      simp
      omega

theorem getCellD_shift (r : Cell) (rs : List Cell) (o : Option Nat) :
    getCellD (r :: rs) (o.map (· + 1)) = getCellD rs o := by
  cases o with
  | none => rfl
  | some i => simp [getCellD, List.getD_cons_succ]

theorem getCellD_append_shift : ∀ (r1 r2 : List Cell) (o : Option Nat),
    getCellD (r1 ++ r2) (o.map (· + r1.length)) = getCellD r2 o := by
  intro r1
  induction r1 with
  | nil =>
    intro r2 o
    simp only [List.nil_append, List.length_nil]
    cases o <;> simp [getCellD]
  | cons r rs ih =>
    intro r2 o
    have : o.map (· + (r :: rs).length) =
        (o.map (· + rs.length)).map (· + 1) := by
      cases o
      · simp
      · simp
        omega
    rw [this, List.cons_append, getCellD_shift, ih]

theorem select_id (cols : List String) : ∀ (row : List Cell),
    cols.Nodup → row.length = cols.length →
    cols.map (fun n => getCellD row (findIdx n cols)) = row := by
  induction cols with
  | nil =>
    intro row _ hlen
    cases row with
    | nil => rfl
    | cons a t => cases hlen
  | cons c cs ih =>
    intro row hN hlen
    cases row with
    | nil => cases hlen
    | cons r rs =>
      have hNt : cs.Nodup := (List.nodup_cons.mp hN).2
      have hnotmem : c ∉ cs := (List.nodup_cons.mp hN).1
      rw [List.map_cons]
      have hhead : getCellD (r :: rs) (findIdx c (c :: cs)) = r := by
        simp [findIdx, getCellD]
      rw [hhead]
      have htail : ∀ n ∈ cs,
          getCellD (r :: rs) (findIdx n (c :: cs)) =
            getCellD rs (findIdx n cs) := by
        intro n hn
        have hc : (c == n) = false := by
          cases hb : c == n with
          | false => rfl
          | true =>
            exact absurd hn (by rw [← show c = n from by simpa using hb]; exact hnotmem)
        simp only [findIdx, hc, Bool.false_eq_true, if_false]
        exact getCellD_shift r rs (findIdx n cs)
      rw [List.map_congr_left htail]
      rw [ih rs hNt (by simpa using hlen)]

theorem select_offset (pre mid post : List String) (r1 r2 r3 : List Cell)
    (hN : (pre ++ (mid ++ post)).Nodup) (h1 : r1.length = pre.length)
    (h2 : r2.length = mid.length) :
    mid.map (fun n => getCellD (r1 ++ (r2 ++ r3))
      (findIdx n (pre ++ (mid ++ post)))) = r2 := by
  have hparts := List.nodup_append.mp hN
  have hmidpost := hparts.2.1
  have hdisj := hparts.2.2
  have hptw : ∀ n ∈ mid,
      getCellD (r1 ++ (r2 ++ r3)) (findIdx n (pre ++ (mid ++ post))) =
        getCellD r2 (findIdx n mid) := by
    intro n hn
    have hnpre : n ∉ pre := fun hmem => hdisj hmem (List.mem_append_left post hn)
    rw [findIdx_append_right n pre (mid ++ post) hnpre, ← h1,
      getCellD_append_shift r1 (r2 ++ r3) (findIdx n (mid ++ post))]
    rw [findIdx_append_left n mid post hn]
    cases hf : findIdx n mid with
    | none => rfl
    | some j =>
      have hj : j < mid.length := findIdx_lt n mid j hf
      simp only [getCellD]
      rw [List.getD_append]
      omega
  rw [List.map_congr_left hptw]
  exact select_id mid r2 (List.nodup_append.mp hmidpost).1 h2

theorem flatten_len_four : ∀ (gs : List (List Cell)),
    (∀ g ∈ gs, g.length = 4) → gs.flatten.length = 4 * gs.length := by
  intro gs
  induction gs with
  | nil => intro _; rfl
  | cons g t ih =>
    intro h
    simp only [List.flatten_cons, List.length_append,
      h g (List.mem_cons_self g t), ih (fun x hx => h x (List.mem_cons_of_mem g hx)),
      List.length_cons]
    ring

theorem movFlatten_len (L : List String) :
    (L.map movCols).flatten.length = 4 * L.length := by
  induction L with
  | nil => rfl
  | cons s t ih =>
    simp only [List.map_cons, List.flatten_cons, List.length_append, ih,
      List.length_cons]
    simp [movCols]
    ring

end StatusProc

namespace StatusProc

theorem isPrefixL_false_head (a b : Char) (as bs : List Char)
    (h : (a == b) = false) : isPrefixL (a :: as) (b :: bs) = false := by
  simp [isPrefixL, h]

theorem isPrefixL_false_second (a1 a2 b1 b2 : Char) (as bs : List Char)
    (h : (a2 == b2) = false) :
    isPrefixL (a1 :: a2 :: as) (b1 :: b2 :: bs) = false := by
  simp [isPrefixL, h]

theorem sw_dataMov_self (suf : String) :
    pyStartsWith ("Data Mov" ++ suf) "Data Mov" = true := by
  unfold pyStartsWith
  rw [String.data_append]
  exact isPrefixL_append_self _ _

theorem sw_dataMov_es (suf : String) :
    pyStartsWith ("E/S" ++ suf) "Data Mov" = false := by
  unfold pyStartsWith
  rw [String.data_append,
    show "E/S".data = ['E', '/', 'S'] from rfl,
    show "Data Mov".data = ['D', 'a', 't', 'a', ' ', 'M', 'o', 'v'] from rfl,
    List.cons_append]
  exact isPrefixL_false_head _ _ _ _ (by decide)

theorem sw_dataMov_dept (suf : String) :
    pyStartsWith ("Deptº" ++ suf) "Data Mov" = false := by
  unfold pyStartsWith
  rw [String.data_append,
    show "Deptº".data = ['D', 'e', 'p', 't', 'º'] from rfl,
    show "Data Mov".data = ['D', 'a', 't', 'a', ' ', 'M', 'o', 'v'] from rfl,
    List.cons_append, List.cons_append]
  exact isPrefixL_false_second _ _ _ _ _ _ (by decide)

theorem sw_dataMov_acao (suf : String) :
    pyStartsWith ("Ação" ++ suf) "Data Mov" = false := by
  unfold pyStartsWith
  rw [String.data_append,
    show "Ação".data = ['A', 'ç', 'ã', 'o'] from rfl,
    show "Data Mov".data = ['D', 'a', 't', 'a', ' ', 'M', 'o', 'v'] from rfl,
    List.cons_append]
  exact isPrefixL_false_head _ _ _ _ (by decide)

theorem dataCols_movCols (suf : String) :
    (movCols suf).filter (fun c => pyStartsWith c "Data Mov") =
      ["Data Mov" ++ suf] := by
  unfold movCols
  simp [List.filter_cons, sw_dataMov_self suf, sw_dataMov_es suf,
    sw_dataMov_dept suf, sw_dataMov_acao suf]

theorem dataCols_flatten (sufs : List String) :
    ((sufs.map movCols).flatten).filter (fun c => pyStartsWith c "Data Mov") =
      sufs.map (fun s => "Data Mov" ++ s) := by
  induction sufs with
  | nil => rfl
  | cons s t ih =>
    simp only [List.map_cons, List.flatten_cons, List.filter_append,
      dataCols_movCols s, ih]
    rfl

theorem dataCols_eq (sufs : List String) :
    (statusCols sufs).filter (fun c => pyStartsWith c "Data Mov") =
      "Data Mov" :: sufs.map (fun s => "Data Mov" ++ s) := by
  unfold statusCols
  rw [List.append_assoc, List.filter_append]
  rw [show col_fixas.filter (fun c => pyStartsWith c "Data Mov") = [] from by decide]
  rw [List.nil_append, List.filter_append]
  rw [show baseMov.filter (fun c => pyStartsWith c "Data Mov") = ["Data Mov"]
    from by decide]
  rw [dataCols_flatten sufs]
  rfl

theorem strDrop_dataMov (suf : String) : strDropStr ("Data Mov" ++ suf) 8 = suf := by
  unfold strDropStr
  rw [String.data_append]
  have h2 : List.drop 8 ("Data Mov".data ++ suf.data) = suf.data := by
    rw [List.drop_left']
    rfl
  rw [h2]

theorem rename_block_cols (cd ce cp ca : String)
    (hfix : ∀ n ∈ col_fixas, n ≠ cd ∧ n ≠ ce ∧ n ≠ cp ∧ n ≠ ca)
    (h4 : ([cd, ce, cp, ca] : List String).Nodup) :
    (col_fixas ++ [cd, ce, cp, ca]).map
      (fun c => ((([(cd, "Data Mov"), (ce, "E/S"), (cp, "Deptº"),
        (ca, "Ação")] : List (String × String)).lookup c).getD c)) =
      col_fixas ++ baseMov := by
  rw [List.map_append]
  simp only [List.nodup_cons, List.mem_cons, List.not_mem_nil, or_false,
    List.mem_singleton, not_or] at h4
  congr 1
  · have hpt : ∀ n ∈ col_fixas,
        ((([(cd, "Data Mov"), (ce, "E/S"), (cp, "Deptº"),
          (ca, "Ação")] : List (String × String)).lookup n).getD n) = id n := by
      intro n hn
      obtain ⟨d1, d2, d3, d4⟩ := hfix n hn
      simp [List.lookup, beq_eq_false_iff_ne.mpr d1, beq_eq_false_iff_ne.mpr d2,
        beq_eq_false_iff_ne.mpr d3, beq_eq_false_iff_ne.mpr d4]
    rw [List.map_congr_left hpt, List.map_id]
  · obtain ⟨⟨hcd1, hcd2, hcd3⟩, ⟨hce1, hce2⟩, hcp1, _⟩ := h4
    simp [List.lookup, baseMov,
      beq_eq_false_iff_ne.mpr (Ne.symm hcd1), beq_eq_false_iff_ne.mpr (Ne.symm hcd2),
      beq_eq_false_iff_ne.mpr (Ne.symm hcd3), beq_eq_false_iff_ne.mpr (Ne.symm hce1),
      beq_eq_false_iff_ne.mpr (Ne.symm hce2), beq_eq_false_iff_ne.mpr (Ne.symm hcp1)]

end StatusProc

namespace StatusProc

/-- The claim's block for group index k: fixed cells plus group k. -/
def blockFrame (entries : List (List Cell × List (List Cell))) (k : ℕ) : Frame :=
  ⟨col_fixas ++ baseMov, entries.map (fun e => e.1 ++ e.2.getD k [])⟩

/-- Well-formedness of the raw entries: ten fixed cells, one movement
group per suffix plus the base group, four cells per group. -/
def entriesOk (sufs : List String)
    (entries : List (List Cell × List (List Cell))) : Prop :=
  ∀ e ∈ entries, e.1.length = 10 ∧ e.2.length = sufs.length + 1 ∧
    ∀ g ∈ e.2, g.length = 4

theorem list_decomp_at (gs : List (List Cell)) (i : ℕ) (hi : i < gs.length) :
    gs = gs.take i ++ gs.getD i [] :: gs.drop (i + 1) ∧
      (gs.take i).length = i := by
  constructor
  · conv_lhs => rw [← List.take_append_drop i gs]
    congr 1
    rw [List.drop_eq_getElem_cons hi, List.getD_eq_getElem gs [] hi]
  · rw [List.length_take]
    omega

theorem flatten_decomp (sufs done todo : List String) (suf : String)
    (hsplit : sufs = done ++ suf :: todo) :
    (sufs.map movCols).flatten =
      (done.map movCols).flatten ++
        (movCols suf ++ (todo.map movCols).flatten) := by
  rw [hsplit]
  simp [List.map_append, List.flatten_append]

theorem statusCols_decomp (sufs done todo : List String) (suf : String)
    (hsplit : sufs = done ++ suf :: todo) :
    statusCols sufs =
      (col_fixas ++ (baseMov ++ (done.map movCols).flatten)) ++
        (movCols suf ++ (todo.map movCols).flatten) := by
  unfold statusCols
  rw [flatten_decomp sufs done todo suf hsplit]
  simp [List.append_assoc]

theorem select_block_row (sufs done todo : List String) (suf : String)
    (hsplit : sufs = done ++ suf :: todo)
    (hN : (statusCols sufs).Nodup)
    (e : List Cell × List (List Cell)) (he1 : e.1.length = 10)
    (he2 : e.2.length = sufs.length + 1) (he4 : ∀ g ∈ e.2, g.length = 4) :
    (col_fixas ++ movCols suf).map
      (fun n => getCellD (statusRow e) (findIdx n (statusCols sufs))) =
      e.1 ++ e.2.getD (done.length + 1) [] := by
  have hi : done.length + 1 < e.2.length := by
    rw [he2, hsplit]
    simp only [List.length_append, List.length_cons]
    omega
  obtain ⟨hdec, hlen_take⟩ := list_decomp_at e.2 (done.length + 1) hi
  have hglen : (e.2.getD (done.length + 1) []).length = 4 := by
    apply he4
    rw [List.getD_eq_getElem e.2 [] hi]
    exact List.getElem_mem hi
  have hrow : statusRow e =
      (e.1 ++ (e.2.take (done.length + 1)).flatten) ++
        ((e.2.getD (done.length + 1) []) ++
          (e.2.drop (done.length + 2)).flatten) := by
    unfold statusRow
    conv_lhs => rw [hdec]
    simp [List.flatten_append, List.append_assoc]
  have hcols := statusCols_decomp sufs done todo suf hsplit
  have hN2 : ((col_fixas ++ (baseMov ++ (done.map movCols).flatten)) ++
      (movCols suf ++ (todo.map movCols).flatten)).Nodup := by
    rw [← hcols]
    exact hN
  have htakelen : (e.1 ++ (e.2.take (done.length + 1)).flatten).length =
      (col_fixas ++ (baseMov ++ (done.map movCols).flatten)).length := by
    simp only [List.length_append]
    rw [he1, flatten_len_four _ (fun g hg => he4 g (List.mem_of_mem_take hg)),
      hlen_take, movFlatten_len]
    simp [col_fixas, baseMov]
    ring
  rw [List.map_append]
  congr 1
  · -- fixed part
    have hrow0 : statusRow e = e.1 ++ e.2.flatten := rfl
    have hcols0 : statusCols sufs =
        col_fixas ++ (baseMov ++ (sufs.map movCols).flatten) := by
      unfold statusCols
      simp [List.append_assoc]
    have hptw : ∀ n ∈ col_fixas,
        getCellD (statusRow e) (findIdx n (statusCols sufs)) =
          getCellD ([] ++ (e.1 ++ e.2.flatten))
            (findIdx n ([] ++ (col_fixas ++ (baseMov ++ (sufs.map movCols).flatten)))) := by
      intro n _
      rw [hrow0, hcols0]
      rfl
    rw [List.map_congr_left hptw]
    apply select_offset [] col_fixas (baseMov ++ (sufs.map movCols).flatten)
      [] e.1 e.2.flatten
    · rw [List.nil_append, ← hcols0]
      exact hN
    · rfl
    · rw [he1]; rfl
  · -- group part
    have hptw : ∀ n ∈ movCols suf,
        getCellD (statusRow e) (findIdx n (statusCols sufs)) =
          getCellD ((e.1 ++ (e.2.take (done.length + 1)).flatten) ++
              ((e.2.getD (done.length + 1) []) ++
                (e.2.drop (done.length + 2)).flatten))
            (findIdx n ((col_fixas ++ (baseMov ++ (done.map movCols).flatten)) ++
              (movCols suf ++ (todo.map movCols).flatten))) := by
      intro n _
      rw [← hrow, ← hcols]
    rw [List.map_congr_left hptw]
    apply select_offset _ _ _ _ _ _ hN2 htakelen
    rw [hglen]
    rfl

theorem select_block (sufs done todo : List String) (suf : String)
    (entries : List (List Cell × List (List Cell)))
    (hsplit : sufs = done ++ suf :: todo)
    (hN : (statusCols sufs).Nodup) (hE : entriesOk sufs entries) :
    selectCols (mkStatusFrame sufs entries) (col_fixas ++ movCols suf) =
      ⟨col_fixas ++ movCols suf,
        entries.map (fun e => e.1 ++ e.2.getD (done.length + 1) [])⟩ := by
  unfold selectCols mkStatusFrame
  simp only [Frame.mk.injEq, true_and, List.map_map]
  apply List.map_congr_left
  intro e he
  obtain ⟨h1, h2, h4⟩ := hE e he
  exact select_block_row sufs done todo suf hsplit hN e h1 h2 h4

end StatusProc

namespace StatusProc

theorem statusCols_nodup_parts (sufs : List String)
    (hN : (statusCols sufs).Nodup) :
    (col_fixas ++ baseMov).Nodup ∧ ((sufs.map movCols).flatten).Nodup ∧
      (col_fixas ++ baseMov).Disjoint ((sufs.map movCols).flatten) := by
  have h2 : ((col_fixas ++ baseMov) ++ (sufs.map movCols).flatten).Nodup := hN
  exact List.nodup_append.mp h2

theorem mem_flatten_movCols (sufs : List String) (suf : String)
    (hsuf : suf ∈ sufs) (x : String) (hx : x ∈ movCols suf) :
    x ∈ (sufs.map movCols).flatten :=
  List.mem_flatten.mpr ⟨movCols suf, List.mem_map_of_mem _ hsuf, hx⟩

theorem movCols_nodup (sufs done todo : List String) (suf : String)
    (hsplit : sufs = done ++ suf :: todo) (hN : (statusCols sufs).Nodup) :
    (movCols suf).Nodup := by
  have hfl := (statusCols_nodup_parts sufs hN).2.1
  rw [flatten_decomp sufs done todo suf hsplit] at hfl
  have h1 := (List.nodup_append.mp hfl).2.1
  exact (List.nodup_append.mp h1).1

theorem block_eval (sufs done todo : List String) (suf : String)
    (entries : List (List Cell × List (List Cell)))
    (hsplit : sufs = done ++ suf :: todo)
    (hN : (statusCols sufs).Nodup) (hE : entriesOk sufs entries) :
    renameCols (selectCols (mkStatusFrame sufs entries)
        (col_fixas ++ movCols suf)) (renameMap suf) =
      blockFrame entries (done.length + 1) := by
  rw [select_block sufs done todo suf entries hsplit hN hE]
  have hsuf : suf ∈ sufs := by rw [hsplit]; simp
  have hdisj := (statusCols_nodup_parts sufs hN).2.2
  have hfix : ∀ n ∈ col_fixas,
      n ≠ "Data Mov" ++ suf ∧ n ≠ "E/S" ++ suf ∧
      n ≠ "Deptº" ++ suf ∧ n ≠ "Ação" ++ suf := by
    intro n hn
    have hleft : n ∈ col_fixas ++ baseMov := List.mem_append_left _ hn
    refine ⟨?_, ?_, ?_, ?_⟩ <;>
      (intro hEq
       exact hdisj hleft (mem_flatten_movCols sufs suf hsuf n
        (by rw [hEq]; simp [movCols])))
  have h4 := movCols_nodup sufs done todo suf hsplit hN
  unfold renameCols blockFrame
  simp only [Frame.mk.injEq, and_true]
  exact rename_block_cols ("Data Mov" ++ suf) ("E/S" ++ suf)
    ("Deptº" ++ suf) ("Ação" ++ suf) hfix h4

theorem ensure_movCols_noop (sufs : List String) (suf : String)
    (hsuf : suf ∈ sufs) (entries : List (List Cell × List (List Cell))) :
    ensureCols (mkStatusFrame sufs entries) (movCols suf) =
      mkStatusFrame sufs entries := by
  apply ensureCols_of_mem
  intro n hn
  apply contains_of_mem
  exact List.mem_append_right _ (mem_flatten_movCols sufs suf hsuf n hn)

theorem fold_spec (sufs : List String)
    (entries : List (List Cell × List (List Cell)))
    (hN : (statusCols sufs).Nodup) (hE : entriesOk sufs entries) :
    ∀ (todo done : List String) (B : List Frame), sufs = done ++ todo →
    List.foldl unpivotStep (mkStatusFrame sufs entries, B)
        (todo.map (fun s => "Data Mov" ++ s)) =
      (mkStatusFrame sufs entries,
        B ++ (List.range todo.length).map
          (fun j => blockFrame entries (done.length + 1 + j))) := by
  intro todo
  induction todo with
  | nil =>
    intro done B _
    simp
  | cons suf todo ih =>
    intro done B hsplit
    have hsuf : suf ∈ sufs := by rw [hsplit]; simp
    have hdisj := (statusCols_nodup_parts sufs hN).2.2
    have hne : (("Data Mov" ++ suf) == "Data Mov") = false := by
      apply beq_eq_false_iff_ne.mpr
      intro hEq
      have hmem1 : "Data Mov" ∈ col_fixas ++ baseMov :=
        List.mem_append_right _ (by simp [baseMov])
      have hmem2 : "Data Mov" ∈ (sufs.map movCols).flatten :=
        mem_flatten_movCols sufs suf hsuf "Data Mov"
          (by rw [← hEq]; simp [movCols])
      exact hdisj hmem1 hmem2
    rw [List.map_cons, List.foldl_cons]
    have hstep : unpivotStep (mkStatusFrame sufs entries, B) ("Data Mov" ++ suf) =
        (mkStatusFrame sufs entries,
         B ++ [blockFrame entries (done.length + 1)]) := by
      unfold unpivotStep
      rw [hne]
      simp only [Bool.false_eq_true, if_false, strDrop_dataMov]
      rw [ensure_movCols_noop sufs suf hsuf entries]
      rw [block_eval sufs done todo suf entries hsplit hN hE]
    rw [hstep]
    rw [ih (done ++ [suf]) (B ++ [blockFrame entries (done.length + 1)])
      (by rw [hsplit]; simp)]
    congr 1
    rw [List.append_assoc]
    congr 1
    simp only [List.length_cons]
    rw [List.range_succ_eq_map, List.map_cons, List.map_map]
    rw [List.singleton_append]
    congr 1
    apply List.map_congr_left
    intro j _
    simp only [Function.comp, List.length_append, List.length_cons,
      List.length_nil]
    congr 1
    omega

end StatusProc

namespace StatusProc

theorem select_block0 (sufs : List String)
    (entries : List (List Cell × List (List Cell)))
    (hN : (statusCols sufs).Nodup) (hE : entriesOk sufs entries) :
    selectCols (mkStatusFrame sufs entries) (col_fixas ++ baseMov) =
      blockFrame entries 0 := by
  unfold selectCols mkStatusFrame blockFrame
  simp only [Frame.mk.injEq, true_and, List.map_map]
  apply List.map_congr_left
  intro e he
  obtain ⟨he1, he2, he4⟩ := hE e he
  have hi : 0 < e.2.length := by rw [he2]; omega
  obtain ⟨hdec, _⟩ := list_decomp_at e.2 0 hi
  have hglen : (e.2.getD 0 []).length = 4 := by
    apply he4
    rw [List.getD_eq_getElem e.2 [] hi]
    exact List.getElem_mem hi
  have hrow : statusRow e = (e.1 ++ e.2.getD 0 []) ++ (e.2.drop 1).flatten := by
    unfold statusRow
    conv_lhs => rw [hdec]
    simp [List.append_assoc]
  have hptw : ∀ n ∈ col_fixas ++ baseMov,
      getCellD (statusRow e) (findIdx n (statusCols sufs)) =
        getCellD ([] ++ ((e.1 ++ e.2.getD 0 []) ++ (e.2.drop 1).flatten))
          (findIdx n ([] ++ ((col_fixas ++ baseMov) ++
            (sufs.map movCols).flatten))) := by
    intro n _
    rw [hrow]
    rfl
  simp only [Function.comp]
  rw [List.map_congr_left hptw]
  exact select_offset [] (col_fixas ++ baseMov) ((sufs.map movCols).flatten)
    [] (e.1 ++ e.2.getD 0 []) ((e.2.drop 1).flatten) hN rfl
    (by rw [List.length_append, he1, hglen]; rfl)

end StatusProc

/-- C2: for every input frame made of the fixed columns plus the base
movement group and N suffixed movement groups, the status-page reshaping
produces exactly the row-wise concatenation of one block per group —
each block carrying the fixed cells unchanged and that group's four
cells under the unsuffixed base labels — with the rows whose every value
is empty removed from the concatenated result. -/
theorem status_unpivot_blocks (sufs : List String)
    (entries : List (List Cell × List (List Cell)))
    (hstrip : (StatusProc.statusCols sufs).map pyStrip = StatusProc.statusCols sufs)
    (hN : (StatusProc.statusCols sufs).Nodup)
    (hE : StatusProc.entriesOk sufs entries) :
    StatusProc.carregar_dados_status_unpivot
        (StatusProc.mkStatusFrame sufs entries) =
      StatusProc.Frame.mk (StatusProc.col_fixas ++ StatusProc.baseMov)
        ((StatusProc.specBlocks sufs entries).filter StatusProc.rowNonEmpty) := by
  have hdf1 : StatusProc.Frame.mk
      ((StatusProc.mkStatusFrame sufs entries).cols.map pyStrip)
      (StatusProc.mkStatusFrame sufs entries).rows =
      StatusProc.mkStatusFrame sufs entries := by
    show StatusProc.Frame.mk ((StatusProc.statusCols sufs).map pyStrip) _ = _
    rw [hstrip]
    rfl
  have hmemL : ∀ n ∈ StatusProc.col_fixas ++ StatusProc.baseMov,
      (StatusProc.statusCols sufs).contains n = true := fun n hn =>
    StatusProc.contains_of_mem _ _ (List.mem_append_left _ hn)
  have hens1 : StatusProc.ensureCols (StatusProc.mkStatusFrame sufs entries)
      StatusProc.col_fixas = StatusProc.mkStatusFrame sufs entries :=
    StatusProc.ensureCols_of_mem _ _
      (fun n hn => hmemL n (List.mem_append_left _ hn))
  have hens2 : StatusProc.ensureCols (StatusProc.mkStatusFrame sufs entries)
      ["Data Mov"] = StatusProc.mkStatusFrame sufs entries := by
    apply StatusProc.ensureCols_of_mem
    intro n hn
    apply hmemL
    apply List.mem_append_right
    simp only [List.mem_singleton] at hn
    subst hn
    simp [StatusProc.baseMov]
  have hens3 : StatusProc.ensureCols (StatusProc.mkStatusFrame sufs entries)
      ["E/S", "Deptº", "Ação"] = StatusProc.mkStatusFrame sufs entries := by
    apply StatusProc.ensureCols_of_mem
    intro n hn
    apply hmemL
    apply List.mem_append_right
    simp only [List.mem_cons, List.not_mem_nil, or_false] at hn
    rcases hn with h | h | h <;> (subst h; simp [StatusProc.baseMov])
  have hskip : StatusProc.unpivotStep
      (StatusProc.mkStatusFrame sufs entries, ([] : List StatusProc.Frame))
      "Data Mov" = (StatusProc.mkStatusFrame sufs entries, []) := by
    simp [StatusProc.unpivotStep]
  simp only [StatusProc.carregar_dados_status_unpivot]
  rw [hdf1, hens1, hens2, hens3]
  rw [show (StatusProc.mkStatusFrame sufs entries).cols =
    StatusProc.statusCols sufs from rfl]
  rw [StatusProc.dataCols_eq sufs]
  rw [List.foldl_cons, hskip]
  rw [StatusProc.fold_spec sufs entries hN hE sufs [] [] rfl]
  rw [show (["Data Mov", "E/S", "Deptº", "Ação"] : List String) =
    StatusProc.baseMov from rfl]
  rw [StatusProc.select_block0 sufs entries hN hE]
  unfold StatusProc.concatRows StatusProc.dropAllEmptyRows
  simp only [List.nil_append, List.map_map]
  congr 1
  unfold StatusProc.specBlocks
  rw [List.range_succ_eq_map, List.map_cons, List.flatten_cons, List.map_map]
  congr 1
  apply congrArg
  refine congrArg List.flatten (List.map_congr_left fun j hj => ?_)
  simp only [Function.comp]
  have hlen : List.length ([] : List String) + 1 + j = j + 1 := by
    simp only [List.length_nil]
    omega
  rw [hlen]
  rfl

theorem status_unpivot_blocks_witness :
    ((StatusProc.statusCols [".1"]).map pyStrip = StatusProc.statusCols [".1"]) ∧
    (StatusProc.statusCols [".1"]).Nodup ∧
    StatusProc.carregar_dados_status_unpivot
        (StatusProc.mkStatusFrame [".1"]
          [([some "1", some "Não", some "23072.000001/2024-01", some "DEP",
             some "Objeto X", some "Pregão", some "01/2024",
             some "R$ 1.000,00", some "", some "02/01/2024"],
            [[some "03/01/2024", some "E", some "DCC", some "Abertura"],
             [none, none, none, none]])]) =
      StatusProc.Frame.mk (StatusProc.col_fixas ++ StatusProc.baseMov)
        ((StatusProc.specBlocks [".1"]
          [([some "1", some "Não", some "23072.000001/2024-01", some "DEP",
             some "Objeto X", some "Pregão", some "01/2024",
             some "R$ 1.000,00", some "", some "02/01/2024"],
            [[some "03/01/2024", some "E", some "DCC", some "Abertura"],
             [none, none, none, none]])]).filter StatusProc.rowNonEmpty) :=
  ⟨by decide, by decide,
    status_unpivot_blocks [".1"]
      [([some "1", some "Não", some "23072.000001/2024-01", some "DEP",
         some "Objeto X", some "Pregão", some "01/2024",
         some "R$ 1.000,00", some "", some "02/01/2024"],
        [[some "03/01/2024", some "E", some "DCC", some "Abertura"],
         [none, none, none, none]])]
      (by decide) (by decide)
      (by unfold StatusProc.entriesOk; decide)⟩
